import Mathlib

/-!
Verification of the CSS selector builder module (`06-objects-tasks.js`).

The module exports:
* `Rectangle(width, height)` — a constructor with a `getArea` closure;
* `getJSON` / `fromJSON` — thin wrappers over `JSON.stringify` / `JSON.parse`
  plus `Object.assign(Object.create(proto), ...)`;
* `cssSelectorBuilder` — a facade over two classes `CSSPath` (simple
  selectors) and `CSSCombinedPath` (combined selectors).

This file gives a shallow embedding of those definitions and proves the
specified properties about them.  JavaScript strings are embedded as `String`;
the dynamic `this.css = {}` object, whose keys are the six selector
categories, is embedded as a record of `Option String` fields (`none` models
an absent key).  JavaScript truthiness of a possibly-absent string property is
the predicate `truthy` below: present and non-empty.

Methods that may `throw` are embedded in state-passing style, returning both
the error (if any) and the instance state after the call — the JS methods
mutate `this` in the order of their statements, and some mutations happen
before a throw, which this embedding preserves.  An `Except`-valued wrapper
`applyCallE` models ordinary fluent chaining, where a throw aborts the chain.
-/

/-- The six selector categories, i.e. the keys of the JS `this.css` object.
The JS key `class` is spelled `cls` and `attribute` is spelled `attrib`
because `class` and `attribute` are Lean keywords. -/
inductive Category where
  | element
  | id
  | cls
  | attrib
  | pseudoClass
  | pseudoElement
deriving DecidableEq

/-- The fixed precedence list from `CSSPath.checkOrder`:
`['element', 'id', 'class', 'attribute', 'pseudoClass', 'pseudoElement']`. -/
def order : List Category :=
  [.element, .id, .cls, .attrib, .pseudoClass, .pseudoElement]

/-- Position of a category in the precedence list (JS `order.indexOf(field)`). -/
def catIdx (c : Category) : Nat := order.indexOf c

/-- The `this.css` object of a `CSSPath` instance: one optional string per
category.  `none` models an absent key. -/
structure Css where
  element : Option String
  id : Option String
  cls : Option String
  attrib : Option String
  pseudoClass : Option String
  pseudoElement : Option String
deriving DecidableEq

/-- Dynamic property read `this.css[f]`. -/
def Css.get (s : Css) : Category → Option String
  | .element => s.element
  | .id => s.id
  | .cls => s.cls
  | .attrib => s.attrib
  | .pseudoClass => s.pseudoClass
  | .pseudoElement => s.pseudoElement

/-- JS truthiness of a possibly-absent string property: present and
non-empty (`undefined` and `''` are falsy). -/
def truthy : Option String → Bool
  | none => false
  | some s => !(s == "")

/-- The two error kinds the builder throws: the duplicate-category message
(`'Element, id and pseudo-element should not occur more then one time …'`)
and the ordering message (`'Selector parts should be arranged …'`). -/
inductive SelError where
  | duplicate
  | order
deriving DecidableEq

/-- A `CSSPath` instance. -/
structure CSSPath where
  css : Css
deriving DecidableEq

/-- `new CSSPath()`: the constructor sets `this.css = {}`. -/
def CSSPath.new : CSSPath := ⟨⟨none, none, none, none, none, none⟩⟩

/-- The condition computed by `CSSPath.checkOrder(field)`: some category
strictly after `field` in the precedence list already holds a truthy value
(`order.slice(order.indexOf(field) + 1).some((f) => this.css[f])`).  The JS
method throws when this is true; the methods below turn that into an
`SelError.order` result. -/
def CSSPath.checkOrder (p : CSSPath) (field : Category) : Bool :=
  ((order.drop (order.indexOf field + 1)).any fun f => truthy (p.css.get f))

/-- `CSSPath.prototype.element(value)`. -/
def CSSPath.element (p : CSSPath) (value : String) : Option SelError × CSSPath :=
  if truthy p.css.element then (some .duplicate, p)
  else if p.checkOrder .element then (some .order, p)
  else (none, ⟨{ p.css with element := some value }⟩)

/-- `CSSPath.prototype.id(value)`: stores `'#' + value`. -/
def CSSPath.id (p : CSSPath) (value : String) : Option SelError × CSSPath :=
  if truthy p.css.id then (some .duplicate, p)
  else if p.checkOrder .id then (some .order, p)
  else (none, ⟨{ p.css with id := some ("#" ++ value) }⟩)

/-- `CSSPath.prototype.pseudoElement(value)`: stores `'::' + value`. -/
def CSSPath.pseudoElement (p : CSSPath) (value : String) : Option SelError × CSSPath :=
  if truthy p.css.pseudoElement then (some .duplicate, p)
  else if p.checkOrder .pseudoElement then (some .order, p)
  else (none, ⟨{ p.css with pseudoElement := some ("::" ++ value) }⟩)

/-- `CSSPath.prototype.class(value)`: first `if (!this.css.class)
this.css.class = ''` (this mutation happens even if the subsequent order
check throws), then the order check, then `this.css.class += '.' + value`. -/
def CSSPath.cls (p : CSSPath) (value : String) : Option SelError × CSSPath :=
  let p1 : CSSPath := if truthy p.css.cls then p else ⟨{ p.css with cls := some "" }⟩
  if p1.checkOrder .cls then (some .order, p1)
  else (none, ⟨{ p1.css with cls := some ((p1.css.cls).getD "" ++ ("." ++ value)) }⟩)

/-- `CSSPath.prototype.attr(value)`: accumulator init, order check, then
`this.css.attribute += '[' + value + ']'`. -/
def CSSPath.attr (p : CSSPath) (value : String) : Option SelError × CSSPath :=
  let p1 : CSSPath := if truthy p.css.attrib then p else ⟨{ p.css with attrib := some "" }⟩
  if p1.checkOrder .attrib then (some .order, p1)
  else (none, ⟨{ p1.css with attrib := some ((p1.css.attrib).getD "" ++ ("[" ++ value ++ "]")) }⟩)

/-- `CSSPath.prototype.pseudoClass(value)`: accumulator init, order check,
then `this.css.pseudoClass += ':' + value`. -/
def CSSPath.pseudoClass (p : CSSPath) (value : String) : Option SelError × CSSPath :=
  let p1 : CSSPath := if truthy p.css.pseudoClass then p
    else ⟨{ p.css with pseudoClass := some "" }⟩
  if p1.checkOrder .pseudoClass then (some .order, p1)
  else (none, ⟨{ p1.css with pseudoClass := some ((p1.css.pseudoClass).getD "" ++ (":" ++ value)) }⟩)

/-- `CSSPath.prototype.stringify()`: appends, in the fixed category order,
each property whose value is truthy. -/
def CSSPath.stringify (p : CSSPath) : String :=
  (if truthy p.css.element then p.css.element.getD "" else "")
    ++ (if truthy p.css.id then p.css.id.getD "" else "")
    ++ (if truthy p.css.cls then p.css.cls.getD "" else "")
    ++ (if truthy p.css.attrib then p.css.attrib.getD "" else "")
    ++ (if truthy p.css.pseudoClass then p.css.pseudoClass.getD "" else "")
    ++ (if truthy p.css.pseudoElement then p.css.pseudoElement.getD "" else "")

/-- Dispatch a mutating call for a given category to the matching `CSSPath`
method, returning the error (if the JS method throws) and the instance state
after the call. -/
def applyCall (p : CSSPath) (c : Category) (v : String) : Option SelError × CSSPath :=
  match c with
  | .element => p.element v
  | .id => p.id v
  | .cls => p.cls v
  | .attrib => p.attr v
  | .pseudoClass => p.pseudoClass v
  | .pseudoElement => p.pseudoElement v

/-- A mutating call as seen by a fluent chain: a throw aborts the chain, so
the post-throw instance state is discarded. -/
def applyCallE (p : CSSPath) (c : Category) (v : String) : Except SelError CSSPath :=
  match applyCall p c v with
  | (some e, _) => .error e
  | (none, q) => .ok q

/-- Run a chain of mutating calls (the first being made on `new CSSPath()`
by the facade), aborting at the first throw. -/
def runCalls (p : CSSPath) : List (Category × String) → Except SelError CSSPath
  | [] => .ok p
  | (c, v) :: rest =>
    match applyCallE p c v with
    | .error e => .error e
    | .ok q => runCalls q rest

/-- A selector value (`SelectorLike`): either a `CSSPath` or a
`CSSCombinedPath`.  The `combined` constructor carries the fields of
`CSSCombinedPath` (`firstSelector`, `combinator`, `secondSelector`). -/
inductive Selector where
  | simple (path : CSSPath)
  | combined (firstSelector : Selector) (combinator : String) (secondSelector : Selector)
deriving DecidableEq

/-- `stringify()` on a selector: a `CSSPath` stringifies as above; a
`CSSCombinedPath` returns
`` `${this.firstSelector.stringify()} ${this.combinator} ${this.secondSelector.stringify()}` ``. -/
def Selector.stringify : Selector → String
  | .simple p => p.stringify
  | .combined l c r => l.stringify ++ " " ++ c ++ " " ++ r.stringify

/-- The combinator field of a combined selector (`this.combinator`). -/
def Selector.getCombinator : Selector → Option String
  | .simple _ => none
  | .combined _ c _ => some c

namespace cssSelectorBuilder

/-- `cssSelectorBuilder.element(value)`: `new CSSPath().element(value)`. -/
def element (value : String) : Except SelError CSSPath :=
  applyCallE CSSPath.new .element value

/-- `cssSelectorBuilder.id(value)`. -/
def id (value : String) : Except SelError CSSPath :=
  applyCallE CSSPath.new .id value

/-- `cssSelectorBuilder.class(value)`. -/
def cls (value : String) : Except SelError CSSPath :=
  applyCallE CSSPath.new .cls value

/-- `cssSelectorBuilder.attr(value)`. -/
def attr (value : String) : Except SelError CSSPath :=
  applyCallE CSSPath.new .attrib value

/-- `cssSelectorBuilder.pseudoClass(value)`. -/
def pseudoClass (value : String) : Except SelError CSSPath :=
  applyCallE CSSPath.new .pseudoClass value

/-- `cssSelectorBuilder.pseudoElement(value)`. -/
def pseudoElement (value : String) : Except SelError CSSPath :=
  applyCallE CSSPath.new .pseudoElement value

/-- `cssSelectorBuilder.combine(selector1, combinator, selector2)`:
`new CSSCombinedPath(selector1, combinator, selector2)`. -/
def combine (selector1 : Selector) (combinator : String) (selector2 : Selector) : Selector :=
  .combined selector1 combinator selector2

end cssSelectorBuilder

/-- `function Rectangle(width, height)`: JS numbers are IEEE-754 doubles,
which `Float` matches. -/
structure Rectangle where
  width : Float
  height : Float

/-- `new Rectangle(width, height)`. -/
def Rectangle.new (width height : Float) : Rectangle := ⟨width, height⟩

/-- `this.getArea = () => this.width * this.height`: the closure reads the
fields at call time, so the area is recomputed from the current field values
on each call. -/
def Rectangle.getArea (r : Rectangle) : Float := r.width * r.height

deriving instance DecidableEq for Except

/-- The formatted fragment a single mutating call appends for its category:
the element value verbatim, `'#' + id`, `'.' + class`, `'[' + attr + ']'`,
`':' + pseudoClass`, `'::' + pseudoElement`. -/
def fragment : Category → String → String
  | .element, v => v
  | .id, v => "#" ++ v
  | .cls, v => "." ++ v
  | .attrib, v => "[" ++ v ++ "]"
  | .pseudoClass, v => ":" ++ v
  | .pseudoElement, v => "::" ++ v

/-- Concatenation, in call order, of the formatted fragments of a call list. -/
def concatFrags : List (Category × String) → String
  | [] => ""
  | (c, v) :: rest => fragment c v ++ concatFrags rest

/-- The states a `CSSPath` instance can reach through the facade and
successful chained calls: `new CSSPath()` immediately populated and mutated
by calls that return normally. -/
inductive Reachable : CSSPath → Prop where
  | new : Reachable CSSPath.new
  | step (p : CSSPath) (c : Category) (v : String) (q : CSSPath) :
      Reachable p → applyCall p c v = (none, q) → Reachable q

/-- The duplicate check that guards the three single-valued methods: the
first `if` of `element`, `id` and `pseudoElement` throws when the category
is already truthy.  The three accumulator methods have no such guard. -/
def duplicateGuard (p : CSSPath) : Category → Bool
  | .element => truthy p.css.element
  | .id => truthy p.css.id
  | .pseudoElement => truthy p.css.pseudoElement
  | _ => false

/-- The string a successful call for category `c` leaves stored in that
category: the value verbatim for `element`, the prefixed/bracketed fragment
appended to the previous accumulator contents for the others. -/
def storedValue (p : CSSPath) (c : Category) (v : String) : String :=
  match c with
  | .element => v
  | .id => "#" ++ v
  | .cls => (p.css.cls).getD "" ++ ("." ++ v)
  | .attrib => (p.css.attrib).getD "" ++ ("[" ++ v ++ "]")
  | .pseudoClass => (p.css.pseudoClass).getD "" ++ (":" ++ v)
  | .pseudoElement => "::" ++ v

/-!
Model of the host primitives used by `getJSON` and `fromJSON`.

`getJSON(obj)` is `JSON.stringify(obj)` and `fromJSON(proto, json)` is
`Object.assign(Object.create(proto), JSON.parse(json))`.  `JSON.stringify`,
`JSON.parse`, `Object.create` and `Object.assign` are host builtins, not
part of the repository source, so they are modelled here from their
specification.  Restrictions of the model, each noted at the definition it
concerns: numeric literals are integers (IEEE-754 double formatting is not
modelled), the parser does not skip whitespace and accepts a slight
superset of JSON numerals, and the index properties of string sources of
`Object.assign` are not modelled.
-/

/-- Modelled from the spec: a structural (JSON) value.  Object fields keep
insertion order, as JS objects and `JSON.stringify` do.  Numbers are
restricted to integers: JS numbers are IEEE-754 doubles, whose
decimal formatting is out of scope here. -/
inductive Json where
  | null
  | bool (b : Bool)
  | num (n : Int)
  | str (s : String)
  | arr (elems : List Json)
  | obj (fields : List (String × Json))

/-- The character for a single hex (or decimal) digit, lowercase. -/
def hexDigit (n : Nat) : Char :=
  if n < 10 then Char.ofNat (48 + n) else Char.ofNat (87 + n)

/-- Decimal digits of a natural number, most significant first. -/
def natDigits (n : Nat) : List Char :=
  if _h : n < 10 then [hexDigit n]
  else natDigits (n / 10) ++ [hexDigit (n % 10)]
termination_by n
decreasing_by exact Nat.div_lt_self (by omega) (by omega)

/-- Modelled from the spec: the decimal form of an integer, as
`JSON.stringify` formats integer-valued numbers. -/
def printInt (n : Int) : List Char :=
  if n < 0 then '-' :: natDigits (-n).toNat else natDigits n.toNat

/-- Modelled from the spec: how `JSON.stringify` escapes one character of a
string: `"` and `\` get a backslash, the five short control escapes are
used where they exist, the remaining control characters use `\u00XX`, and
every other character stands for itself. -/
def escapeChar (c : Char) : List Char :=
  if c = '"' then ['\\', '"']
  else if c = '\\' then ['\\', '\\']
  else if c = '\x08' then ['\\', 'b']
  else if c = '\x0c' then ['\\', 'f']
  else if c = '\n' then ['\\', 'n']
  else if c = '\r' then ['\\', 'r']
  else if c = '\t' then ['\\', 't']
  else if c.toNat < 32 then
    ['\\', 'u', '0', '0', hexDigit (c.toNat / 16), hexDigit (c.toNat % 16)]
  else [c]

/-- A double-quoted JSON string literal for the given characters. -/
def quoteChars (cs : List Char) : List Char :=
  '"' :: (cs.flatMap escapeChar ++ ['"'])

mutual

/-- Modelled from the spec: `JSON.stringify` of a structural value, with no
indentation argument, hence no inserted whitespace.  Object fields are
emitted in insertion order. -/
def printJson : Json → List Char
  | .null => "null".data
  | .bool true => "true".data
  | .bool false => "false".data
  | .num n => printInt n
  | .str s => quoteChars s.data
  | .arr es => '[' :: (printArrElems es ++ [']'])
  | .obj fs => '\x7b' :: (printObjMembers fs ++ ['\x7d'])

/-- Array elements, comma-separated. -/
def printArrElems : List Json → List Char
  | [] => []
  | [e] => printJson e
  | e :: es => printJson e ++ ',' :: printArrElems es

/-- Object members, comma-separated, each `"key":value`. -/
def printObjMembers : List (String × Json) → List Char
  | [] => []
  | [(k, v)] => quoteChars k.data ++ ':' :: printJson v
  | (k, v) :: fs => quoteChars k.data ++ ':' :: printJson v ++ ',' :: printObjMembers fs

end

/-- `JSON.stringify`, producing a `String`. -/
def JSONstringify (v : Json) : String := ⟨printJson v⟩

/-- `function getJSON(obj)`: `return JSON.stringify(obj);`. -/
def getJSON (obj : Json) : String := JSONstringify obj

/-- Whether a character is a decimal digit. -/
def isDigitChar (c : Char) : Bool := '0' ≤ c && c ≤ '9'

/-- The value of one hex digit, if the character is one. -/
def parseHexDigit (c : Char) : Option Nat :=
  if '0' ≤ c && c ≤ '9' then some (c.toNat - 48)
  else if 'a' ≤ c && c ≤ 'f' then some (c.toNat - 87)
  else if 'A' ≤ c && c ≤ 'F' then some (c.toNat - 55)
  else none

/-- Split off the longest leading run of decimal digits. -/
def takeDigits : List Char → List Char × List Char
  | [] => ([], [])
  | c :: rest =>
    if isDigitChar c then
      let dr := takeDigits rest
      (c :: dr.1, dr.2)
    else ([], c :: rest)

/-- Value of a digit run, most significant first, onto an accumulator. -/
def digitsToNat (acc : Nat) : List Char → Nat
  | [] => acc
  | c :: rest => digitsToNat (acc * 10 + (c.toNat - 48)) rest

/-- Modelled from the spec: the body of a JSON string literal after the
opening quote, returning the decoded characters and what follows the
closing quote.  Handles the two-character escapes, `\uXXXX`, and rejects
unescaped control characters.  `\uXXXX` sequences denoting surrogate halves
are rejected: a Lean `Char` is a unicode scalar value and cannot carry the
lone surrogates JS strings allow. -/
def parseStringBody : List Char → Option (List Char × List Char)
  | [] => none
  | c :: rest =>
    if c = '"' then some ([], rest)
    else if c = '\\' then
      match rest with
      | [] => none
      | e :: rs =>
        if e = '"' then (parseStringBody rs).map fun sr => ('"' :: sr.1, sr.2)
        else if e = '\\' then (parseStringBody rs).map fun sr => ('\\' :: sr.1, sr.2)
        else if e = '/' then (parseStringBody rs).map fun sr => ('/' :: sr.1, sr.2)
        else if e = 'b' then (parseStringBody rs).map fun sr => ('\x08' :: sr.1, sr.2)
        else if e = 'f' then (parseStringBody rs).map fun sr => ('\x0c' :: sr.1, sr.2)
        else if e = 'n' then (parseStringBody rs).map fun sr => ('\n' :: sr.1, sr.2)
        else if e = 'r' then (parseStringBody rs).map fun sr => ('\r' :: sr.1, sr.2)
        else if e = 't' then (parseStringBody rs).map fun sr => ('\t' :: sr.1, sr.2)
        else if e = 'u' then
          match rs with
          | a :: b :: c2 :: d :: rs2 =>
            match parseHexDigit a, parseHexDigit b, parseHexDigit c2, parseHexDigit d with
            | some ha, some hb, some hc, some hd =>
              let code := ((ha * 16 + hb) * 16 + hc) * 16 + hd
              if code < 55296 then
                (parseStringBody rs2).map fun sr => (Char.ofNat code :: sr.1, sr.2)
              else if 57343 < code ∧ code < 1114112 then
                (parseStringBody rs2).map fun sr => (Char.ofNat code :: sr.1, sr.2)
              else none
            | _, _, _, _ => none
          | _ => none
        else none
    else if c.toNat < 32 then none
    else (parseStringBody rest).map fun sr => (c :: sr.1, sr.2)

mutual

/-- Modelled from the spec: `JSON.parse` of a single value, returning the
value and the unconsumed input.  `fuel` bounds the nesting the parser will
enter; every recursive call decrements it.  The model does not skip
whitespace (the canonical `JSON.stringify` output contains none) and reads
integer numerals only (accepting a slight superset of the JSON numeral
grammar: leading zeros are not rejected). -/
def parseValue : Nat → List Char → Option (Json × List Char)
  | 0, _ => none
  | fuel + 1, l =>
    match l with
    | [] => none
    | c :: rest =>
      if c = 'n' then
        match rest with
        | 'u' :: 'l' :: 'l' :: r => some (.null, r)
        | _ => none
      else if c = 't' then
        match rest with
        | 'r' :: 'u' :: 'e' :: r => some (.bool true, r)
        | _ => none
      else if c = 'f' then
        match rest with
        | 'a' :: 'l' :: 's' :: 'e' :: r => some (.bool false, r)
        | _ => none
      else if c = '"' then
        (parseStringBody rest).map fun sr => (.str ⟨sr.1⟩, sr.2)
      else if c = '[' then
        match rest with
        | [] => none
        | c2 :: r2 =>
          if c2 = ']' then some (.arr [], r2)
          else (parseElems fuel (c2 :: r2)).map fun er => (.arr er.1, er.2)
      else if c = '\x7b' then
        match rest with
        | [] => none
        | c2 :: r2 =>
          if c2 = '\x7d' then some (.obj [], r2)
          else (parseMembers fuel (c2 :: r2)).map fun fr => (.obj fr.1, fr.2)
      else if c = '-' then
        let dr := takeDigits rest
        if dr.1.isEmpty then none
        else some (.num (-(digitsToNat 0 dr.1 : Int)), dr.2)
      else if isDigitChar c then
        let dr := takeDigits (c :: rest)
        some (.num ((digitsToNat 0 dr.1 : Nat) : Int), dr.2)
      else none

/-- One or more comma-separated array elements followed by `]`. -/
def parseElems : Nat → List Char → Option (List Json × List Char)
  | 0, _ => none
  | fuel + 1, l =>
    match parseValue fuel l with
    | none => none
    | some (v, r) =>
      match r with
      | ',' :: r2 => (parseElems fuel r2).map fun er => (v :: er.1, er.2)
      | ']' :: r2 => some ([v], r2)
      | _ => none

/-- One or more comma-separated `"key":value` members followed by `}`. -/
def parseMembers : Nat → List Char → Option (List (String × Json) × List Char)
  | 0, _ => none
  | fuel + 1, l =>
    match l with
    | '"' :: rest =>
      match parseStringBody rest with
      | none => none
      | some (k, r2) =>
        match r2 with
        | ':' :: r3 =>
          match parseValue fuel r3 with
          | none => none
          | some (v, r4) =>
            match r4 with
            | ',' :: r5 => (parseMembers fuel r5).map fun fr => ((⟨k⟩, v) :: fr.1, fr.2)
            | '\x7d' :: r5 => some ([(⟨k⟩, v)], r5)
            | _ => none
        | _ => none
    | _ => none

end

/-- Modelled from the spec: `JSON.parse` — parse the whole text as one
structural value; anything left over (or any parse failure) is a
`SyntaxError`, modelled as `none`.  The fuel `text.length + 1` suffices:
every nesting level of a value consumes at least one character. -/
def JSONparse (text : String) : Option Json :=
  match parseValue (text.length + 1) text.data with
  | some (v, []) => some v
  | _ => none

mutual

/-- Fuel sufficient for `parseValue` to parse the printed form of a value. -/
def fuelV : Json → Nat
  | .null => 1
  | .bool _ => 1
  | .num _ => 1
  | .str _ => 1
  | .arr es => 1 + fuelL es
  | .obj fs => 1 + fuelM fs

/-- Fuel sufficient for `parseElems` on the printed form of the elements. -/
def fuelL : List Json → Nat
  | [] => 1
  | [e] => 1 + fuelV e
  | e :: es => 1 + fuelV e + fuelL es

/-- Fuel sufficient for `parseMembers` on the printed form of the members. -/
def fuelM : List (String × Json) → Nat
  | [] => 1
  | [(_, v)] => 1 + fuelV v
  | (_, v) :: fs => 1 + fuelV v + fuelM fs

end

/-- Look a key up in an ordered association list (first match wins, like a
JS own-property table, whose keys are unique). -/
def lookupAssoc {α : Type} : List (String × α) → String → Option α
  | [], _ => none
  | (k2, v) :: rest, k => if k2 = k then some v else lookupAssoc rest k

/-- Modelled from the spec: an object as `fromJSON` produces it — own
enumerable data fields plus a prototype carrying the blueprint's members
(capabilities), of an arbitrary type `M` since methods are opaque here. -/
structure JsObject (M : Type) where
  own : List (String × Json)
  proto : List (String × M)

/-- Property lookup: own fields first, then the prototype chain — so own
(parsed) fields win over blueprint members on key collision. -/
def lookupMember {M : Type} (o : JsObject M) (k : String) : Option (Json ⊕ M) :=
  match lookupAssoc o.own k with
  | some v => some (.inl v)
  | none => (lookupAssoc o.proto k).map .inr

/-- Modelled from the spec: `Object.create(proto)` — a fresh object with no
own properties whose prototype is `proto`. -/
def objectCreate {M : Type} (proto : List (String × M)) : JsObject M := ⟨[], proto⟩

/-- `[[Set]]` of one own property: overwrite in place if the key exists,
else append. -/
def setField (own : List (String × Json)) (k : String) (v : Json) : List (String × Json) :=
  if (own.map Prod.fst).contains k then
    own.map fun kv => if kv.1 = k then (k, v) else kv
  else own ++ [(k, v)]

/-- The own enumerable properties of a source value, as `Object.assign`
enumerates them: an object's fields, an array's index properties; `null`,
booleans and numbers have none.  (The index properties of string sources
are not modelled.) -/
def sourceFields : Json → List (String × Json)
  | .obj fs => fs
  | .arr es => es.enum.map fun ie => (toString ie.1, ie.2)
  | _ => []

/-- Modelled from the spec: `Object.assign(target, source)` — copy the own
enumerable properties of `source` onto `target`, in order, overwriting on
key collision. -/
def objectAssign {M : Type} (target : JsObject M) (source : Json) : JsObject M :=
  ⟨(sourceFields source).foldl (fun own kv => setField own kv.1 kv.2) target.own, target.proto⟩

/-- `function fromJSON(proto, json)`:
`return Object.assign(Object.create(proto), JSON.parse(json));` — `none`
models the `SyntaxError` thrown by `JSON.parse` on invalid text. -/
def fromJSON {M : Type} (proto : List (String × M)) (json : String) : Option (JsObject M) :=
  (JSONparse json).map fun parsed => objectAssign (objectCreate proto) parsed

/-- Whether a list does not begin with a decimal digit (so a numeral parse
stops exactly at its end). -/
def noDigitHead : List Char → Bool
  | [] => true
  | c :: _ => !(isDigitChar c)

/-- The characters a printed JSON value can begin with. -/
def valueStart (c : Char) : Bool :=
  c = 'n' || c = 't' || c = 'f' || c = '"' || c = '[' || c = '\x7b' || c = '-' || isDigitChar c

-- ==================== Theorems ====================

theorem getD_empty_of_truthy_false {x : Option String} (h : truthy x = false) :
    x.getD "" = "" := by
  cases x with
  | none => rfl
  | some s =>
    simp only [truthy, Bool.not_eq_false', beq_iff_eq] at h
    simp [h]

theorem stringify_part (x : Option String) :
    (if truthy x then x.getD "" else "") = x.getD "" := by
  cases h : truthy x with
  | true => simp
  | false => simp [getD_empty_of_truthy_false h]

theorem stringify_eq (p : CSSPath) :
    p.stringify = p.css.element.getD "" ++ p.css.id.getD "" ++ p.css.cls.getD ""
      ++ p.css.attrib.getD "" ++ p.css.pseudoClass.getD ""
      ++ p.css.pseudoElement.getD "" := by
  unfold CSSPath.stringify
  rw [stringify_part, stringify_part, stringify_part, stringify_part, stringify_part,
    stringify_part]

theorem checkOrder_element_eq (p : CSSPath) :
    p.checkOrder .element = (truthy p.css.id || (truthy p.css.cls || (truthy p.css.attrib ||
      (truthy p.css.pseudoClass || (truthy p.css.pseudoElement || false))))) := rfl

theorem checkOrder_id_eq (p : CSSPath) :
    p.checkOrder .id = (truthy p.css.cls || (truthy p.css.attrib ||
      (truthy p.css.pseudoClass || (truthy p.css.pseudoElement || false)))) := rfl

theorem checkOrder_cls_eq (p : CSSPath) :
    p.checkOrder .cls = (truthy p.css.attrib ||
      (truthy p.css.pseudoClass || (truthy p.css.pseudoElement || false))) := rfl

theorem checkOrder_attrib_eq (p : CSSPath) :
    p.checkOrder .attrib = (truthy p.css.pseudoClass || (truthy p.css.pseudoElement || false)) :=
  rfl

theorem checkOrder_pseudoClass_eq (p : CSSPath) :
    p.checkOrder .pseudoClass = (truthy p.css.pseudoElement || false) := rfl

theorem checkOrder_pseudoElement_eq (p : CSSPath) :
    p.checkOrder .pseudoElement = false := rfl

/-- A mutating call that returns normally appends exactly its formatted
fragment to the stringified selector (because passing the order check means
every later category was empty), and the only category it can newly make
truthy is its own. -/
theorem applyCall_ok (p : CSSPath) (c : Category) (v : String) (q : CSSPath)
    (hok : applyCall p c v = (none, q)) :
    q.stringify = p.stringify ++ fragment c v ∧
      ∀ f, truthy (q.css.get f) = true → truthy (p.css.get f) = true ∨ f = c := by
  cases c with
  | element =>
    unfold applyCall CSSPath.element at hok
    cases h1 : truthy p.css.element with
    | true => simp [h1] at hok
    | false =>
      cases h2 : p.checkOrder .element with
      | true => simp [h1, h2] at hok
      | false =>
        simp [h1, h2] at hok
        subst hok
        rw [checkOrder_element_eq] at h2
        simp only [Bool.or_eq_false_iff] at h2
        obtain ⟨hid, hcls, hattr, hpc, hpe, -⟩ := h2
        constructor
        · simp [stringify_eq, fragment, getD_empty_of_truthy_false h1,
            getD_empty_of_truthy_false hid, getD_empty_of_truthy_false hcls,
            getD_empty_of_truthy_false hattr, getD_empty_of_truthy_false hpc,
            getD_empty_of_truthy_false hpe, String.append_empty, String.empty_append]
        · intro f hf
          cases f <;> simp_all [Css.get]
  | id =>
    unfold applyCall CSSPath.id at hok
    cases h1 : truthy p.css.id with
    | true => simp [h1] at hok
    | false =>
      cases h2 : p.checkOrder .id with
      | true => simp [h1, h2] at hok
      | false =>
        simp [h1, h2] at hok
        subst hok
        rw [checkOrder_id_eq] at h2
        simp only [Bool.or_eq_false_iff] at h2
        obtain ⟨hcls, hattr, hpc, hpe, -⟩ := h2
        constructor
        · simp [stringify_eq, fragment, getD_empty_of_truthy_false h1,
            getD_empty_of_truthy_false hcls, getD_empty_of_truthy_false hattr,
            getD_empty_of_truthy_false hpc, getD_empty_of_truthy_false hpe,
            String.append_empty, String.empty_append, String.append_assoc]
        · intro f hf
          cases f <;> simp_all [Css.get]
  | cls =>
    unfold applyCall CSSPath.cls at hok
    cases h0 : truthy p.css.cls with
    | true =>
      simp only [h0, if_true] at hok
      cases h2 : p.checkOrder .cls with
      | true => simp [h2] at hok
      | false =>
        simp [h2] at hok
        subst hok
        rw [checkOrder_cls_eq] at h2
        simp only [Bool.or_eq_false_iff] at h2
        obtain ⟨hattr, hpc, hpe, -⟩ := h2
        constructor
        · simp [stringify_eq, fragment, getD_empty_of_truthy_false hattr,
            getD_empty_of_truthy_false hpc, getD_empty_of_truthy_false hpe,
            String.append_empty, String.empty_append, String.append_assoc]
        · intro f hf
          cases f <;> simp_all [Css.get]
    | false =>
      simp only [h0, Bool.false_eq_true, if_false] at hok
      cases h2 : CSSPath.checkOrder ⟨{ p.css with cls := some "" }⟩ .cls with
      | true => simp [h2] at hok
      | false =>
        simp [h2] at hok
        subst hok
        rw [checkOrder_cls_eq] at h2
        simp only [Bool.or_eq_false_iff] at h2
        obtain ⟨hattr, hpc, hpe, -⟩ := h2
        constructor
        · simp [stringify_eq, fragment, getD_empty_of_truthy_false h0,
            getD_empty_of_truthy_false hattr, getD_empty_of_truthy_false hpc,
            getD_empty_of_truthy_false hpe,
            String.append_empty, String.empty_append, String.append_assoc]
        · intro f hf
          cases f <;> simp_all [Css.get]
  | attrib =>
    unfold applyCall CSSPath.attr at hok
    cases h0 : truthy p.css.attrib with
    | true =>
      simp only [h0, if_true] at hok
      cases h2 : p.checkOrder .attrib with
      | true => simp [h2] at hok
      | false =>
        simp [h2] at hok
        subst hok
        rw [checkOrder_attrib_eq] at h2
        simp only [Bool.or_eq_false_iff] at h2
        obtain ⟨hpc, hpe, -⟩ := h2
        constructor
        · simp [stringify_eq, fragment, getD_empty_of_truthy_false hpc,
            getD_empty_of_truthy_false hpe,
            String.append_empty, String.empty_append, String.append_assoc]
        · intro f hf
          cases f <;> simp_all [Css.get]
    | false =>
      simp only [h0, Bool.false_eq_true, if_false] at hok
      cases h2 : CSSPath.checkOrder ⟨{ p.css with attrib := some "" }⟩ .attrib with
      | true => simp [h2] at hok
      | false =>
        simp [h2] at hok
        subst hok
        rw [checkOrder_attrib_eq] at h2
        simp only [Bool.or_eq_false_iff] at h2
        obtain ⟨hpc, hpe, -⟩ := h2
        constructor
        · simp [stringify_eq, fragment, getD_empty_of_truthy_false h0,
            getD_empty_of_truthy_false hpc, getD_empty_of_truthy_false hpe,
            String.append_empty, String.empty_append, String.append_assoc]
        · intro f hf
          cases f <;> simp_all [Css.get]
  | pseudoClass =>
    unfold applyCall CSSPath.pseudoClass at hok
    cases h0 : truthy p.css.pseudoClass with
    | true =>
      simp only [h0, if_true] at hok
      cases h2 : p.checkOrder .pseudoClass with
      | true => simp [h2] at hok
      | false =>
        simp [h2] at hok
        subst hok
        rw [checkOrder_pseudoClass_eq] at h2
        simp only [Bool.or_eq_false_iff] at h2
        obtain ⟨hpe, -⟩ := h2
        constructor
        · simp [stringify_eq, fragment, getD_empty_of_truthy_false hpe,
            String.append_empty, String.empty_append, String.append_assoc]
        · intro f hf
          cases f <;> simp_all [Css.get]
    | false =>
      simp only [h0, Bool.false_eq_true, if_false] at hok
      cases h2 : CSSPath.checkOrder ⟨{ p.css with pseudoClass := some "" }⟩ .pseudoClass with
      | true => simp [h2] at hok
      | false =>
        simp [h2] at hok
        subst hok
        rw [checkOrder_pseudoClass_eq] at h2
        simp only [Bool.or_eq_false_iff] at h2
        obtain ⟨hpe, -⟩ := h2
        constructor
        · simp [stringify_eq, fragment, getD_empty_of_truthy_false h0,
            getD_empty_of_truthy_false hpe,
            String.append_empty, String.empty_append, String.append_assoc]
        · intro f hf
          cases f <;> simp_all [Css.get]
  | pseudoElement =>
    unfold applyCall CSSPath.pseudoElement at hok
    cases h1 : truthy p.css.pseudoElement with
    | true => simp [h1] at hok
    | false =>
      cases h2 : p.checkOrder .pseudoElement with
      | true => simp [h1, h2] at hok
      | false =>
        simp [h1, h2] at hok
        subst hok
        constructor
        · simp [stringify_eq, fragment, getD_empty_of_truthy_false h1,
            String.append_empty, String.empty_append, String.append_assoc]
        · intro f hf
          cases f <;> simp_all [Css.get]

/-- Over a whole successful chain: `stringify` of the final state is the
initial `stringify` followed by the fragments of all the calls, in call
order. -/
theorem runCalls_stringify (calls : List (Category × String)) :
    ∀ p q : CSSPath, runCalls p calls = .ok q →
      q.stringify = p.stringify ++ concatFrags calls := by
  induction calls with
  | nil =>
    intro p q hrun
    simp only [runCalls] at hrun
    cases hrun
    simp [concatFrags, String.append_empty]
  | cons cv rest ih =>
    intro p q hrun
    obtain ⟨c, v⟩ := cv
    simp only [runCalls, applyCallE] at hrun
    rcases hE : applyCall p c v with ⟨oe, q2⟩
    rw [hE] at hrun
    cases oe with
    | some e => simp at hrun
    | none =>
      simp only at hrun
      have hstep := applyCall_ok p c v q2 hE
      have hrest := ih q2 q hrun
      rw [hrest, hstep.1, String.append_assoc]
      simp [concatFrags]

/-- C1: for every chain of builder calls in non-decreasing precedence order
that completes without throwing, `stringify()` returns exactly the
concatenation of the formatted fragments (element value verbatim, `'#'+id`,
`'.'+class` per call in call order, `'['+attr+']'`, `':'+pseudoClass`,
`'::'+pseudoElement`) — which, the calls being ordered, is the concatenation
in the fixed category order with no separators between categories. -/
theorem C1_sorted_chain_stringify (calls : List (Category × String)) (q : CSSPath)
    (_hsorted : List.Sorted (· ≤ ·) (calls.map fun cv => catIdx cv.1))
    (hok : runCalls CSSPath.new calls = .ok q) :
    q.stringify = concatFrags calls := by
  have h := runCalls_stringify calls CSSPath.new q hok
  rw [show CSSPath.new.stringify = "" from rfl, String.empty_append] at h
  exact h

theorem C1_witness :
    concatFrags [(.id, "main"), (.cls, "container"), (.cls, "editable")] =
        "#main.container.editable" ∧
      CSSPath.stringify ⟨⟨none, some "#main", some ".container.editable", none, none, none⟩⟩ =
        concatFrags [(.id, "main"), (.cls, "container"), (.cls, "editable")] :=
  ⟨by decide, C1_sorted_chain_stringify [(.id, "main"), (.cls, "container"), (.cls, "editable")]
    ⟨⟨none, some "#main", some ".container.editable", none, none, none⟩⟩
    (by decide) (by decide)⟩

/-- C5: `stringify()` on a combined selector is exactly
`left.stringify() ++ " " ++ combinator ++ " " ++ right.stringify()` — one
space on each side of the verbatim combinator token regardless of its
content; on the scenario, combining `element('div').id('main')` and
`element('table').id('data')` with `'+'` gives `"div#main + table#data"`,
and nesting a combine result produces the extra spaces implied by this
exact concatenation (here, three spaces around each `' '` combinator). -/
theorem C5_combined_stringify :
    (∀ (l r : Selector) (comb : String),
      (cssSelectorBuilder.combine l comb r).stringify =
        l.stringify ++ " " ++ comb ++ " " ++ r.stringify) ∧
    ((do
        let a ← runCalls CSSPath.new [(.element, "div"), (.id, "main")]
        let b ← runCalls CSSPath.new [(.element, "table"), (.id, "data")]
        pure (cssSelectorBuilder.combine (.simple a) "+" (.simple b)).stringify) =
      Except.ok (ε := SelError) "div#main + table#data") ∧
    ((do
        let a ← runCalls CSSPath.new [(.element, "div"), (.id, "main")]
        let b ← runCalls CSSPath.new [(.element, "table"), (.id, "data")]
        pure (cssSelectorBuilder.combine (.simple a) " "
          (cssSelectorBuilder.combine (.simple b) " " (.simple a))).stringify) =
      Except.ok (ε := SelError) "div#main   table#data   div#main") :=
  ⟨fun _ _ _ => rfl, by decide, by decide⟩

/-- C6: `combine` never throws — for every pair of selectors and every
combinator string it just constructs the combined selector, storing the
combinator token unchanged and unvalidated — and `stringify()` is a total
function on selectors built through the facade (no error conditions), even
for an arbitrary combinator token. -/
theorem C6_combine_total :
    (∀ (l r : Selector) (comb : String),
      cssSelectorBuilder.combine l comb r = .combined l comb r ∧
      (cssSelectorBuilder.combine l comb r).getCombinator = some comb) ∧
    (∀ s : Selector, ∃ out : String, s.stringify = out) ∧
    ((cssSelectorBuilder.combine (.simple CSSPath.new) "@@weird||"
        (.simple CSSPath.new)).stringify = " @@weird|| ") :=
  ⟨fun _ _ _ => ⟨rfl, rfl⟩, fun s => ⟨s.stringify, rfl⟩, by decide⟩

/-- C7: `new Rectangle(w, h)` exposes `width = w`, `height = h`, and
`getArea()` computes `width * height` from the current field values on each
call (nothing is cached): after reassigning `width` or `height`, the next
`getArea()` call returns the product of the updated fields. -/
theorem C7_rectangle :
    (∀ w h : Float, (Rectangle.new w h).width = w ∧ (Rectangle.new w h).height = h) ∧
    (∀ r : Rectangle, r.getArea = r.width * r.height) ∧
    (∀ (r : Rectangle) (w2 : Float),
      ({ r with width := w2 } : Rectangle).getArea = w2 * r.height) ∧
    (∀ (r : Rectangle) (h2 : Float),
      ({ r with height := h2 } : Rectangle).getArea = r.width * h2) :=
  ⟨fun _ _ => ⟨rfl, rfl⟩, fun _ => rfl, fun _ _ => rfl, fun _ _ => rfl⟩

theorem length_zero_iff (t : String) : t.length = 0 ↔ t = "" := by
  constructor
  · intro h
    cases t with
    | mk data =>
      have hd : data = [] := List.length_eq_zero.mp h
      rw [hd]
  · intro h
    rw [h]
    rfl

theorem concat_ne_empty_left (s t : String) (hs : s ≠ "") : s ++ t ≠ "" := by
  intro h
  have hl := congrArg String.length h
  rw [String.length_append] at hl
  have hs' : s.length ≠ 0 := fun h0 => hs ((length_zero_iff s).mp h0)
  have ht : ("" : String).length = 0 := rfl
  omega

theorem concat_ne_empty_right (s t : String) (ht : t ≠ "") : s ++ t ≠ "" := by
  intro h
  have hl := congrArg String.length h
  rw [String.length_append] at hl
  have ht' : t.length ≠ 0 := fun h0 => ht ((length_zero_iff t).mp h0)
  have he : ("" : String).length = 0 := rfl
  omega

theorem truthy_some_iff (s : String) : truthy (some s) = true ↔ s ≠ "" := by
  simp [truthy]

theorem mem_drop_iff (c f : Category) :
    f ∈ order.drop (order.indexOf c + 1) ↔ catIdx c < catIdx f := by
  cases c <;> cases f <;> decide

theorem checkOrder_iff_laterHolds (p : CSSPath) (c : Category) :
    p.checkOrder c = true ↔ ∃ f, catIdx c < catIdx f ∧ truthy (p.css.get f) = true := by
  unfold CSSPath.checkOrder
  rw [List.any_eq_true]
  constructor
  · rintro ⟨f, hmem, ht⟩
    exact ⟨f, (mem_drop_iff c f).1 hmem, ht⟩
  · rintro ⟨f, hlt, ht⟩
    exact ⟨f, (mem_drop_iff c f).2 hlt, ht⟩

theorem truthy_new_false (f : Category) : truthy (CSSPath.new.css.get f) = false := by
  cases f <;> rfl

theorem checkOrder_cls_init (p : CSSPath) :
    CSSPath.checkOrder ⟨{ p.css with cls := some "" }⟩ .cls = p.checkOrder .cls := rfl

theorem checkOrder_attrib_init (p : CSSPath) :
    CSSPath.checkOrder ⟨{ p.css with attrib := some "" }⟩ .attrib = p.checkOrder .attrib := rfl

theorem checkOrder_pseudoClass_init (p : CSSPath) :
    CSSPath.checkOrder ⟨{ p.css with pseudoClass := some "" }⟩ .pseudoClass =
      p.checkOrder .pseudoClass := rfl

/-- Shape of the state after a successful mutating call: the call's own
category now stores the formatted value (accumulators append to their
previous contents), and every other category is untouched. -/
theorem applyCall_ok_get (p q : CSSPath) (c : Category) (v : String)
    (hok : applyCall p c v = (none, q)) :
    q.css.get c = some (storedValue p c v) ∧
    (∀ f, f ≠ c → q.css.get f = p.css.get f) := by
  cases c with
  | element =>
    unfold applyCall CSSPath.element at hok
    cases h1 : truthy p.css.element with
    | true => simp [h1] at hok
    | false =>
      cases h2 : p.checkOrder .element with
      | true => simp [h1, h2] at hok
      | false =>
        simp [h1, h2] at hok
        subst hok
        exact ⟨rfl, fun f hf => by cases f <;> simp_all [Css.get]⟩
  | id =>
    unfold applyCall CSSPath.id at hok
    cases h1 : truthy p.css.id with
    | true => simp [h1] at hok
    | false =>
      cases h2 : p.checkOrder .id with
      | true => simp [h1, h2] at hok
      | false =>
        simp [h1, h2] at hok
        subst hok
        exact ⟨rfl, fun f hf => by cases f <;> simp_all [Css.get]⟩
  | cls =>
    unfold applyCall CSSPath.cls at hok
    cases h0 : truthy p.css.cls with
    | true =>
      simp only [h0, if_true] at hok
      cases h2 : p.checkOrder .cls with
      | true => simp [h2] at hok
      | false =>
        simp [h2] at hok
        subst hok
        exact ⟨rfl, fun f hf => by cases f <;> simp_all [Css.get]⟩
    | false =>
      simp only [h0, Bool.false_eq_true, if_false] at hok
      cases h2 : CSSPath.checkOrder ⟨{ p.css with cls := some "" }⟩ .cls with
      | true => simp [h2] at hok
      | false =>
        simp [h2] at hok
        subst hok
        refine ⟨?_, fun f hf => by cases f <;> simp_all [Css.get]⟩
        simp [Css.get, storedValue, getD_empty_of_truthy_false h0]
  | attrib =>
    unfold applyCall CSSPath.attr at hok
    cases h0 : truthy p.css.attrib with
    | true =>
      simp only [h0, if_true] at hok
      cases h2 : p.checkOrder .attrib with
      | true => simp [h2] at hok
      | false =>
        simp [h2] at hok
        subst hok
        exact ⟨rfl, fun f hf => by cases f <;> simp_all [Css.get]⟩
    | false =>
      simp only [h0, Bool.false_eq_true, if_false] at hok
      cases h2 : CSSPath.checkOrder ⟨{ p.css with attrib := some "" }⟩ .attrib with
      | true => simp [h2] at hok
      | false =>
        simp [h2] at hok
        subst hok
        refine ⟨?_, fun f hf => by cases f <;> simp_all [Css.get]⟩
        simp [Css.get, storedValue, getD_empty_of_truthy_false h0]
  | pseudoClass =>
    unfold applyCall CSSPath.pseudoClass at hok
    cases h0 : truthy p.css.pseudoClass with
    | true =>
      simp only [h0, if_true] at hok
      cases h2 : p.checkOrder .pseudoClass with
      | true => simp [h2] at hok
      | false =>
        simp [h2] at hok
        subst hok
        exact ⟨rfl, fun f hf => by cases f <;> simp_all [Css.get]⟩
    | false =>
      simp only [h0, Bool.false_eq_true, if_false] at hok
      cases h2 : CSSPath.checkOrder ⟨{ p.css with pseudoClass := some "" }⟩ .pseudoClass with
      | true => simp [h2] at hok
      | false =>
        simp [h2] at hok
        subst hok
        refine ⟨?_, fun f hf => by cases f <;> simp_all [Css.get]⟩
        simp [Css.get, storedValue, getD_empty_of_truthy_false h0]
  | pseudoElement =>
    unfold applyCall CSSPath.pseudoElement at hok
    cases h1 : truthy p.css.pseudoElement with
    | true => simp [h1] at hok
    | false =>
      cases h2 : p.checkOrder .pseudoElement with
      | true => simp [h1, h2] at hok
      | false =>
        simp [h1, h2] at hok
        subst hok
        exact ⟨rfl, fun f hf => by cases f <;> simp_all [Css.get]⟩

/-- A successful mutating call implies its order check passed. -/
theorem applyCall_ok_checkOrder (p q : CSSPath) (c : Category) (v : String)
    (hok : applyCall p c v = (none, q)) : p.checkOrder c = false := by
  cases c with
  | element =>
    unfold applyCall CSSPath.element at hok
    cases h1 : truthy p.css.element with
    | true => simp [h1] at hok
    | false =>
      cases h2 : p.checkOrder .element with
      | true => simp [h1, h2] at hok
      | false => rfl
  | id =>
    unfold applyCall CSSPath.id at hok
    cases h1 : truthy p.css.id with
    | true => simp [h1] at hok
    | false =>
      cases h2 : p.checkOrder .id with
      | true => simp [h1, h2] at hok
      | false => rfl
  | cls =>
    unfold applyCall CSSPath.cls at hok
    cases h0 : truthy p.css.cls with
    | true =>
      simp only [h0, if_true] at hok
      cases h2 : p.checkOrder .cls with
      | true => simp [h2] at hok
      | false => rfl
    | false =>
      simp only [h0, Bool.false_eq_true, if_false] at hok
      cases h2 : CSSPath.checkOrder ⟨{ p.css with cls := some "" }⟩ .cls with
      | true => simp [h2] at hok
      | false => rw [← checkOrder_cls_init]; exact h2
  | attrib =>
    unfold applyCall CSSPath.attr at hok
    cases h0 : truthy p.css.attrib with
    | true =>
      simp only [h0, if_true] at hok
      cases h2 : p.checkOrder .attrib with
      | true => simp [h2] at hok
      | false => rfl
    | false =>
      simp only [h0, Bool.false_eq_true, if_false] at hok
      cases h2 : CSSPath.checkOrder ⟨{ p.css with attrib := some "" }⟩ .attrib with
      | true => simp [h2] at hok
      | false => rw [← checkOrder_attrib_init]; exact h2
  | pseudoClass =>
    unfold applyCall CSSPath.pseudoClass at hok
    cases h0 : truthy p.css.pseudoClass with
    | true =>
      simp only [h0, if_true] at hok
      cases h2 : p.checkOrder .pseudoClass with
      | true => simp [h2] at hok
      | false => rfl
    | false =>
      simp only [h0, Bool.false_eq_true, if_false] at hok
      cases h2 : CSSPath.checkOrder ⟨{ p.css with pseudoClass := some "" }⟩ .pseudoClass with
      | true => simp [h2] at hok
      | false => rw [← checkOrder_pseudoClass_init]; exact h2
  | pseudoElement => exact checkOrder_pseudoElement_eq p

/-- A successful call for a non-`element` category always leaves that
category truthy: its stored fragment carries a baked-in `#`, `.`, `[...]`,
`:` or `::`, hence is non-empty. -/
theorem stored_fragment_truthy (p q : CSSPath) (c : Category) (v : String)
    (hc : c ≠ .element) (hok : applyCall p c v = (none, q)) :
    truthy (q.css.get c) = true := by
  have hget := (applyCall_ok_get p q c v hok).1
  rw [hget, truthy_some_iff]
  cases c with
  | element => exact absurd rfl hc
  | id => exact concat_ne_empty_left "#" v (by decide)
  | cls =>
    simp only [storedValue]
    exact concat_ne_empty_right _ _ (concat_ne_empty_left "." v (by decide))
  | attrib =>
    simp only [storedValue]
    exact concat_ne_empty_right _ _
      (concat_ne_empty_left _ "]" (concat_ne_empty_left "[" v (by decide)))
  | pseudoClass =>
    simp only [storedValue]
    exact concat_ne_empty_right _ _ (concat_ne_empty_left ":" v (by decide))
  | pseudoElement => exact concat_ne_empty_left "::" v (by decide)

/-- C2 counterexample: on the instance built by `element('a').id('x')`, the
category `id` — strictly after `element` in the precedence order — holds a
value, so the claim predicts that `element('b')` raises `OrderError`; the
code raises the duplicate error instead, because the duplicate check runs
before the order check. -/
theorem C2_counterexample :
    runCalls CSSPath.new [(.element, "a"), (.id, "x")] =
        .ok ⟨⟨some "a", some "#x", none, none, none, none⟩⟩ ∧
      (∃ f, catIdx .element < catIdx f ∧
        truthy (Css.get ⟨some "a", some "#x", none, none, none, none⟩ f) = true) ∧
      (applyCall ⟨⟨some "a", some "#x", none, none, none, none⟩⟩ .element "b").1 ≠
        some .order ∧
      (applyCall ⟨⟨some "a", some "#x", none, none, none, none⟩⟩ .element "b").1 =
        some .duplicate :=
  ⟨by decide, ⟨.id, by decide, by decide⟩, by decide, by decide⟩

/-- C2 (amended): a mutating call for category `C` raises `OrderError` iff
some category strictly after `C` in the precedence order already holds a
value AND the call does not fail the duplicate check first (for `element`,
`id`, `pseudoElement` when that category is already truthy, the duplicate
error shadows the order error); and calling any pair of setters on a fresh
instance in non-decreasing precedence order never raises `OrderError`. -/
theorem C2_order_error_iff :
    (∀ (p : CSSPath) (c : Category) (v : String),
      (applyCall p c v).1 = some .order ↔
        ((∃ f, catIdx c < catIdx f ∧ truthy (p.css.get f) = true) ∧
          duplicateGuard p c = false)) ∧
    (∀ (c1 c2 : Category) (v1 v2 : String) (p1 : CSSPath),
      catIdx c1 ≤ catIdx c2 →
      applyCall CSSPath.new c1 v1 = (none, p1) →
      (applyCall p1 c2 v2).1 ≠ some .order) := by
  have main : ∀ (p : CSSPath) (c : Category) (v : String),
      (applyCall p c v).1 = some .order ↔
        ((∃ f, catIdx c < catIdx f ∧ truthy (p.css.get f) = true) ∧
          duplicateGuard p c = false) := by
    intro p c v
    rw [← checkOrder_iff_laterHolds]
    cases c with
    | element =>
      unfold applyCall CSSPath.element
      cases h1 : truthy p.css.element with
      | true => simp [h1, duplicateGuard]
      | false =>
        cases h2 : p.checkOrder .element with
        | true => simp [h1, h2, duplicateGuard]
        | false => simp [h1, h2, duplicateGuard]
    | id =>
      unfold applyCall CSSPath.id
      cases h1 : truthy p.css.id with
      | true => simp [h1, duplicateGuard]
      | false =>
        cases h2 : p.checkOrder .id with
        | true => simp [h1, h2, duplicateGuard]
        | false => simp [h1, h2, duplicateGuard]
    | pseudoElement =>
      unfold applyCall CSSPath.pseudoElement
      cases h1 : truthy p.css.pseudoElement with
      | true => simp [h1, duplicateGuard]
      | false =>
        cases h2 : p.checkOrder .pseudoElement with
        | true => simp [h1, h2, duplicateGuard]
        | false => simp [h1, h2, duplicateGuard]
    | cls =>
      unfold applyCall CSSPath.cls
      cases h0 : truthy p.css.cls with
      | true =>
        simp only [h0, if_true]
        cases h2 : p.checkOrder .cls with
        | true => simp [h2, duplicateGuard]
        | false => simp [h2, duplicateGuard]
      | false =>
        simp only [h0, Bool.false_eq_true, if_false]
        cases h2 : p.checkOrder .cls with
        | true => simp [checkOrder_cls_init, h2, duplicateGuard]
        | false => simp [checkOrder_cls_init, h2, duplicateGuard]
    | attrib =>
      unfold applyCall CSSPath.attr
      cases h0 : truthy p.css.attrib with
      | true =>
        simp only [h0, if_true]
        cases h2 : p.checkOrder .attrib with
        | true => simp [h2, duplicateGuard]
        | false => simp [h2, duplicateGuard]
      | false =>
        simp only [h0, Bool.false_eq_true, if_false]
        cases h2 : p.checkOrder .attrib with
        | true => simp [checkOrder_attrib_init, h2, duplicateGuard]
        | false => simp [checkOrder_attrib_init, h2, duplicateGuard]
    | pseudoClass =>
      unfold applyCall CSSPath.pseudoClass
      cases h0 : truthy p.css.pseudoClass with
      | true =>
        simp only [h0, if_true]
        cases h2 : p.checkOrder .pseudoClass with
        | true => simp [h2, duplicateGuard]
        | false => simp [h2, duplicateGuard]
      | false =>
        simp only [h0, Bool.false_eq_true, if_false]
        cases h2 : p.checkOrder .pseudoClass with
        | true => simp [checkOrder_pseudoClass_init, h2, duplicateGuard]
        | false => simp [checkOrder_pseudoClass_init, h2, duplicateGuard]
  refine ⟨main, ?_⟩
  intro c1 c2 v1 v2 p1 hle hfirst hcontra
  obtain ⟨⟨f, hlt, ht⟩, -⟩ := (main p1 c2 v2).1 hcontra
  rcases (applyCall_ok CSSPath.new c1 v1 p1 hfirst).2 f ht with h | rfl
  · rw [truthy_new_false f] at h
    exact Bool.noConfusion h
  · omega

theorem C2_witness :
    (applyCall ⟨⟨none, none, none, none, none, some "::x"⟩⟩ .cls "y").1 = some .order :=
  (C2_order_error_iff.1 ⟨⟨none, none, none, none, none, some "::x"⟩⟩ .cls "y").2
    ⟨⟨.pseudoElement, by decide, by decide⟩, by decide⟩

/-- C3 counterexample: the claim says a second `setElement` call always
raises the duplicate error regardless of the values; but `element('')`
stores `''`, which is falsy, so the second `element` call slips past the
duplicate check, succeeds, and overwrites the first value. -/
theorem C3_counterexample :
    runCalls CSSPath.new [(.element, ""), (.element, "div")] =
      .ok ⟨⟨some "div", none, none, none, none, none⟩⟩ := by decide

/-- C3 (amended): a second `id` or `pseudoElement` call on the same
instance always raises the duplicate error, regardless of the values (their
stored fragments are never empty); a second `element` call raises it
whenever the first value was a non-empty string (an empty first value is
falsy, so the second call succeeds and overwrites). -/
theorem C3_second_set_duplicate :
    (∀ (p q : CSSPath) (v1 v2 : String), v1 ≠ "" →
      applyCall p .element v1 = (none, q) →
      (applyCall q .element v2).1 = some .duplicate) ∧
    (∀ (p q : CSSPath) (v1 v2 : String),
      applyCall p .id v1 = (none, q) →
      (applyCall q .id v2).1 = some .duplicate) ∧
    (∀ (p q : CSSPath) (v1 v2 : String),
      applyCall p .pseudoElement v1 = (none, q) →
      (applyCall q .pseudoElement v2).1 = some .duplicate) := by
  refine ⟨?_, ?_, ?_⟩
  · intro p q v1 v2 hv hok
    have hget := (applyCall_ok_get p q .element v1 hok).1
    have ht : truthy q.css.element = true := by
      rw [show q.css.element = Css.get q.css .element from rfl, hget, truthy_some_iff]
      exact hv
    simp [applyCall, CSSPath.element, ht]
  · intro p q v1 v2 hok
    have ht : truthy q.css.id = true := stored_fragment_truthy p q .id v1 (by decide) hok
    simp [applyCall, CSSPath.id, ht]
  · intro p q v1 v2 hok
    have ht : truthy q.css.pseudoElement = true :=
      stored_fragment_truthy p q .pseudoElement v1 (by decide) hok
    simp [applyCall, CSSPath.pseudoElement, ht]

theorem C3_witness :
    (applyCall ⟨⟨none, some "#m", none, none, none, none⟩⟩ .id "n").1 = some .duplicate :=
  C3_second_set_duplicate.2.1 CSSPath.new ⟨⟨none, some "#m", none, none, none, none⟩⟩
    "m" "n" (by decide)

/-- Reachability invariant: on any state reached through successful calls,
every written non-`element` category is truthy (its stored fragment has a
baked-in prefix, so it is never the empty string). -/
theorem reachable_written_truthy (p : CSSPath) (h : Reachable p) :
    ∀ f, f ≠ .element → p.css.get f = none ∨ truthy (p.css.get f) = true := by
  induction h with
  | new => intro f _; left; cases f <;> rfl
  | step p c v q hre hok ih =>
    intro f hf
    by_cases hfc : f = c
    · subst hfc
      exact Or.inr (stored_fragment_truthy p q f v hf hok)
    · rw [(applyCall_ok_get p q c v hok).2 f hfc]
      exact ih f hf

/-- C4 (invariant I2): on every state reachable through the facade and
successful chained calls, a mutating call for category `c` can only succeed
if no category strictly after `c` in the precedence order has ever been
written on the instance — so every successful mutating call arrives in
non-decreasing precedence order. -/
theorem C4_invariant_I2 (p : CSSPath) (hreach : Reachable p) (c : Category) (v : String)
    (q : CSSPath) (hok : applyCall p c v = (none, q)) :
    ∀ f, catIdx c < catIdx f → p.css.get f = none := by
  intro f hlt
  have hco : p.checkOrder c = false := applyCall_ok_checkOrder p q c v hok
  have hnt : truthy (p.css.get f) = false := by
    cases htv : truthy (p.css.get f) with
    | false => rfl
    | true =>
      have hc2 : p.checkOrder c = true := (checkOrder_iff_laterHolds p c).2 ⟨f, hlt, htv⟩
      rw [hco] at hc2
      exact Bool.noConfusion hc2
  have hfe : f ≠ .element := by
    intro hfe
    subst hfe
    have h0 : catIdx Category.element = 0 := rfl
    omega
  rcases reachable_written_truthy p hreach f hfe with h | h
  · exact h
  · rw [hnt] at h
    exact Bool.noConfusion h

theorem C4_witness :
    Css.get ⟨none, some "#main", none, none, none, none⟩ .pseudoElement = none :=
  C4_invariant_I2 ⟨⟨none, some "#main", none, none, none, none⟩⟩
    (Reachable.step CSSPath.new .id "main" ⟨⟨none, some "#main", none, none, none, none⟩⟩
      Reachable.new (by decide))
    .cls "container" ⟨⟨none, some "#main", some ".container", none, none, none⟩⟩ (by decide)
    .pseudoElement (by decide)

/-- C9 (error atomicity): if a mutating call throws, `stringify()` on the
instance afterwards returns the same string as before the failed call —
even for `class`, `attr` and `pseudoClass`, whose `''` accumulator
pre-initialization happens before the order check but is falsy and
therefore invisible to `stringify`. -/
theorem C9_error_atomic (p : CSSPath) (c : Category) (v : String) (e : SelError)
    (herr : (applyCall p c v).1 = some e) :
    (applyCall p c v).2.stringify = p.stringify := by
  cases c with
  | element =>
    unfold applyCall CSSPath.element at herr ⊢
    cases h1 : truthy p.css.element with
    | true => simp [h1]
    | false =>
      cases h2 : p.checkOrder .element with
      | true => simp [h1, h2]
      | false => simp [h1, h2] at herr
  | id =>
    unfold applyCall CSSPath.id at herr ⊢
    cases h1 : truthy p.css.id with
    | true => simp [h1]
    | false =>
      cases h2 : p.checkOrder .id with
      | true => simp [h1, h2]
      | false => simp [h1, h2] at herr
  | pseudoElement =>
    unfold applyCall CSSPath.pseudoElement at herr ⊢
    cases h1 : truthy p.css.pseudoElement with
    | true => simp [h1]
    | false =>
      cases h2 : p.checkOrder .pseudoElement with
      | true => simp [h1, h2]
      | false => simp [h1, h2] at herr
  | cls =>
    unfold applyCall CSSPath.cls at herr ⊢
    cases h0 : truthy p.css.cls with
    | true =>
      simp only [h0, if_true] at herr ⊢
      cases h2 : p.checkOrder .cls with
      | true => simp [h2]
      | false => simp [h2] at herr
    | false =>
      simp only [h0, Bool.false_eq_true, if_false] at herr ⊢
      cases h2 : CSSPath.checkOrder ⟨{ p.css with cls := some "" }⟩ .cls with
      | true =>
        simp only [h2, if_true]
        rw [stringify_eq, stringify_eq]
        simp [getD_empty_of_truthy_false h0]
      | false => simp [h2] at herr
  | attrib =>
    unfold applyCall CSSPath.attr at herr ⊢
    cases h0 : truthy p.css.attrib with
    | true =>
      simp only [h0, if_true] at herr ⊢
      cases h2 : p.checkOrder .attrib with
      | true => simp [h2]
      | false => simp [h2] at herr
    | false =>
      simp only [h0, Bool.false_eq_true, if_false] at herr ⊢
      cases h2 : CSSPath.checkOrder ⟨{ p.css with attrib := some "" }⟩ .attrib with
      | true =>
        simp only [h2, if_true]
        rw [stringify_eq, stringify_eq]
        simp [getD_empty_of_truthy_false h0]
      | false => simp [h2] at herr
  | pseudoClass =>
    unfold applyCall CSSPath.pseudoClass at herr ⊢
    cases h0 : truthy p.css.pseudoClass with
    | true =>
      simp only [h0, if_true] at herr ⊢
      cases h2 : p.checkOrder .pseudoClass with
      | true => simp [h2]
      | false => simp [h2] at herr
    | false =>
      simp only [h0, Bool.false_eq_true, if_false] at herr ⊢
      cases h2 : CSSPath.checkOrder ⟨{ p.css with pseudoClass := some "" }⟩ .pseudoClass with
      | true =>
        simp only [h2, if_true]
        rw [stringify_eq, stringify_eq]
        simp [getD_empty_of_truthy_false h0]
      | false => simp [h2] at herr

theorem C9_witness :
    (applyCall ⟨⟨none, none, none, none, none, some "::x"⟩⟩ .cls "y").2.stringify =
      CSSPath.stringify ⟨⟨none, none, none, none, none, some "::x"⟩⟩ :=
  C9_error_atomic ⟨⟨none, none, none, none, none, some "::x"⟩⟩ .cls "y" .order (by decide)

/-- C10: category presence is tracked by string truthiness.  `element('')`
through the facade yields a selector whose `stringify()` is `""` and on
which `element` may be called a second time without error, the second value
overwriting the first; every other category always stores a fragment with a
baked-in prefix or brackets, hence non-empty and truthy, so those
categories are never affected. -/
theorem C10_empty_element :
    cssSelectorBuilder.element "" = .ok ⟨⟨some "", none, none, none, none, none⟩⟩ ∧
    CSSPath.stringify ⟨⟨some "", none, none, none, none, none⟩⟩ = "" ∧
    applyCall ⟨⟨some "", none, none, none, none, none⟩⟩ .element "div" =
      (none, ⟨⟨some "div", none, none, none, none, none⟩⟩) ∧
    (∀ c : Category, c ≠ .element → ∀ (p q : CSSPath) (v : String),
      applyCall p c v = (none, q) → truthy (q.css.get c) = true) :=
  ⟨by decide, by decide, by decide,
    fun c hc p q v hok => stored_fragment_truthy p q c v hc hok⟩

theorem C10_witness :
    truthy (Css.get ⟨none, some "#", none, none, none, none⟩ .id) = true :=
  C10_empty_element.2.2.2 .id (by decide) CSSPath.new
    ⟨⟨none, some "#", none, none, none, none⟩⟩ "" (by decide)

theorem mk_data_eq (s : String) : (⟨s.data⟩ : String) = s := rfl

theorem hexDigit_toNat (m : Nat) (h : m < 10) : (hexDigit m).toNat = 48 + m := by
  interval_cases m <;> decide

theorem parseHexDigit_hexDigit (m : Nat) (h : m < 16) : parseHexDigit (hexDigit m) = some m := by
  interval_cases m <;> decide

theorem isDigitChar_hexDigit (m : Nat) (h : m < 10) : isDigitChar (hexDigit m) = true := by
  interval_cases m <;> decide

theorem isDigitChar_toNat (c : Char) (h : isDigitChar c = true) :
    48 ≤ c.toNat ∧ c.toNat ≤ 57 := by
  unfold isDigitChar at h
  rw [Bool.and_eq_true] at h
  obtain ⟨h1, h2⟩ := h
  rw [decide_eq_true_iff] at h1 h2
  exact ⟨h1, h2⟩

theorem natDigits_ne_nil (n : Nat) : natDigits n ≠ [] := by
  unfold natDigits
  split
  · simp
  · simp

theorem natDigits_all_digits (n : Nat) : ∀ c ∈ natDigits n, isDigitChar c = true := by
  induction n using Nat.strong_induction_on with
  | _ n ih =>
    unfold natDigits
    split
    · intro c hc
      simp only [List.mem_singleton] at hc
      subst hc
      exact isDigitChar_hexDigit n (by omega)
    · intro c hc
      rw [List.mem_append] at hc
      rcases hc with hc | hc
      · exact ih (n / 10) (Nat.div_lt_self (by omega) (by omega)) c hc
      · simp only [List.mem_singleton] at hc
        subst hc
        exact isDigitChar_hexDigit (n % 10) (Nat.mod_lt _ (by omega))

theorem natDigits_cons (n : Nat) : ∃ c cs, natDigits n = c :: cs ∧ isDigitChar c = true := by
  cases hd : natDigits n with
  | nil => exact absurd hd (natDigits_ne_nil n)
  | cons c cs =>
    refine ⟨c, cs, rfl, natDigits_all_digits n c ?_⟩
    rw [hd]
    exact List.mem_cons_self c cs

theorem digitsToNat_append (acc : Nat) (l1 l2 : List Char) :
    digitsToNat acc (l1 ++ l2) = digitsToNat (digitsToNat acc l1) l2 := by
  induction l1 generalizing acc with
  | nil => rfl
  | cons c rest ih =>
    rw [List.cons_append]
    rw [show digitsToNat acc (c :: (rest ++ l2)) =
      digitsToNat (acc * 10 + (c.toNat - 48)) (rest ++ l2) from rfl]
    rw [show digitsToNat acc (c :: rest) = digitsToNat (acc * 10 + (c.toNat - 48)) rest from rfl]
    exact ih _

theorem digitsToNat_natDigits (n : Nat) : digitsToNat 0 (natDigits n) = n := by
  induction n using Nat.strong_induction_on with
  | _ n ih =>
    by_cases h : n < 10
    · rw [natDigits.eq_def]
      rw [dif_pos h]
      rw [show digitsToNat 0 [hexDigit n] = 0 * 10 + ((hexDigit n).toNat - 48) from rfl]
      rw [hexDigit_toNat n h]
      omega
    · rw [natDigits.eq_def]
      rw [dif_neg h]
      rw [digitsToNat_append]
      rw [ih (n / 10) (Nat.div_lt_self (by omega) (by omega))]
      rw [show digitsToNat (n / 10) [hexDigit (n % 10)] =
        (n / 10) * 10 + ((hexDigit (n % 10)).toNat - 48) from rfl]
      rw [hexDigit_toNat (n % 10) (Nat.mod_lt _ (by omega))]
      omega

theorem takeDigits_split (ds rest : List Char) (hds : ∀ c ∈ ds, isDigitChar c = true)
    (hrest : noDigitHead rest = true) : takeDigits (ds ++ rest) = (ds, rest) := by
  induction ds with
  | nil =>
    cases rest with
    | nil => rfl
    | cons c rs =>
      unfold noDigitHead at hrest
      rw [Bool.not_eq_true'] at hrest
      simp [takeDigits, hrest]
  | cons c ds' ih =>
    have hc := hds c (List.mem_cons_self c ds')
    simp [takeDigits, hc, ih fun c2 h2 => hds c2 (List.mem_cons_of_mem _ h2)]

theorem valueStart_ne (c : Char) (h : valueStart c = true) :
    c ≠ ']' ∧ c ≠ '\x7d' ∧ c ≠ ',' := by
  refine ⟨fun he => ?_, fun he => ?_, fun he => ?_⟩
  all_goals subst he
  all_goals revert h
  all_goals decide

theorem digit_ne_specials (c : Char) (h : isDigitChar c = true) :
    c ≠ 'n' ∧ c ≠ 't' ∧ c ≠ 'f' ∧ c ≠ '"' ∧ c ≠ '[' ∧ c ≠ '\x7b' ∧ c ≠ '-' := by
  refine ⟨fun he => ?_, fun he => ?_, fun he => ?_, fun he => ?_, fun he => ?_,
    fun he => ?_, fun he => ?_⟩
  all_goals subst he
  all_goals revert h
  all_goals decide

theorem parseStringBody_quote (cs : List Char) : ∀ rest : List Char,
    parseStringBody (cs.flatMap escapeChar ++ '"' :: rest) = some (cs, rest) := by
  induction cs with
  | nil =>
    intro rest
    rw [List.flatMap_nil, List.nil_append, parseStringBody.eq_def]
    simp
  | cons c cs' ih =>
    intro rest
    rw [List.flatMap_cons, List.append_assoc]
    by_cases h1 : c = '"'
    · subst h1
      rw [show escapeChar '"' = ['\\', '"'] from rfl]
      rw [List.cons_append, List.cons_append, List.nil_append, parseStringBody.eq_def]
      simp [ih]
    · by_cases h2 : c = '\\'
      · subst h2
        rw [show escapeChar '\\' = ['\\', '\\'] from rfl]
        rw [List.cons_append, List.cons_append, List.nil_append, parseStringBody.eq_def]
        simp [ih]
      · by_cases h3 : c = '\x08'
        · subst h3
          rw [show escapeChar '\x08' = ['\\', 'b'] from rfl]
          rw [List.cons_append, List.cons_append, List.nil_append, parseStringBody.eq_def]
          simp [ih]
        · by_cases h4 : c = '\x0c'
          · subst h4
            rw [show escapeChar '\x0c' = ['\\', 'f'] from rfl]
            rw [List.cons_append, List.cons_append, List.nil_append, parseStringBody.eq_def]
            simp [ih]
          · by_cases h5 : c = '\n'
            · subst h5
              rw [show escapeChar '\n' = ['\\', 'n'] from rfl]
              rw [List.cons_append, List.cons_append, List.nil_append, parseStringBody.eq_def]
              simp [ih]
            · by_cases h6 : c = '\r'
              · subst h6
                rw [show escapeChar '\r' = ['\\', 'r'] from rfl]
                rw [List.cons_append, List.cons_append, List.nil_append, parseStringBody.eq_def]
                simp [ih]
              · by_cases h7 : c = '\t'
                · subst h7
                  rw [show escapeChar '\t' = ['\\', 't'] from rfl]
                  rw [List.cons_append, List.cons_append, List.nil_append, parseStringBody.eq_def]
                  simp [ih]
                · by_cases h8 : c.toNat < 32
                  · have hesc : escapeChar c =
                        ['\\', 'u', '0', '0', hexDigit (c.toNat / 16), hexDigit (c.toNat % 16)] := by
                      unfold escapeChar
                      rw [if_neg h1, if_neg h2, if_neg h3, if_neg h4, if_neg h5, if_neg h6,
                        if_neg h7, if_pos h8]
                    rw [hesc]
                    have e0 : parseHexDigit '0' = some 0 := by decide
                    have e1 : parseHexDigit (hexDigit (c.toNat / 16)) = some (c.toNat / 16) :=
                      parseHexDigit_hexDigit _ (by omega)
                    have e2 : parseHexDigit (hexDigit (c.toNat % 16)) = some (c.toNat % 16) :=
                      parseHexDigit_hexDigit _ (by omega)
                    have hcode : ((0 * 16 + 0) * 16 + c.toNat / 16) * 16 + c.toNat % 16 =
                      c.toNat := by omega
                    have hcode2 : c.toNat / 16 * 16 + c.toNat % 16 = c.toNat := by omega
                    have h55 : c.toNat < 55296 := by omega
                    rw [List.cons_append, List.cons_append, List.cons_append, List.cons_append,
                      List.cons_append, List.cons_append, List.nil_append, parseStringBody.eq_def]
                    simp [e0, e1, e2, hcode, hcode2, h55, Char.ofNat_toNat, ih]
                  · have hesc : escapeChar c = [c] := by
                      unfold escapeChar
                      rw [if_neg h1, if_neg h2, if_neg h3, if_neg h4, if_neg h5, if_neg h6,
                        if_neg h7, if_neg h8]
                    rw [hesc]
                    rw [List.cons_append, List.nil_append, parseStringBody.eq_def]
                    simp [h1, h2, h8, ih]

theorem fuelV_pos (v : Json) : 1 ≤ fuelV v := by
  cases v with
  | null => simp [fuelV]
  | bool b => simp [fuelV]
  | num n => simp [fuelV]
  | str s => simp [fuelV]
  | arr es => simp [fuelV]
  | obj fs => simp [fuelV]

theorem fuelL_pos (es : List Json) : 1 ≤ fuelL es := by
  cases es with
  | nil => simp [fuelL]
  | cons e es' =>
    cases es' with
    | nil => simp [fuelL]
    | cons e2 es'' => simp [fuelL]; omega

theorem fuelM_pos (fs : List (String × Json)) : 1 ≤ fuelM fs := by
  cases fs with
  | nil => simp [fuelM]
  | cons kv fs' =>
    obtain ⟨k, v⟩ := kv
    cases fs' with
    | nil => simp [fuelM]
    | cons kv2 fs'' =>
      obtain ⟨k2, v2⟩ := kv2
      simp [fuelM]; omega

theorem printJson_cons (v : Json) : ∃ c cs, printJson v = c :: cs ∧ valueStart c = true := by
  cases v with
  | null => exact ⟨'n', "ull".data, by simp [printJson], by decide⟩
  | bool b =>
    cases b with
    | true => exact ⟨'t', "rue".data, by simp [printJson], by decide⟩
    | false => exact ⟨'f', "alse".data, by simp [printJson], by decide⟩
  | num n =>
    by_cases hn : n < 0
    · refine ⟨'-', natDigits (-n).toNat, ?_, by decide⟩
      simp only [printJson]
      unfold printInt
      rw [if_pos hn]
    · obtain ⟨c, cs, heq, hc⟩ := natDigits_cons n.toNat
      refine ⟨c, cs, ?_, by simp [valueStart, hc]⟩
      simp only [printJson]
      unfold printInt
      rw [if_neg hn, heq]
  | str s =>
    exact ⟨'"', s.data.flatMap escapeChar ++ ['"'], by simp [printJson, quoteChars], by decide⟩
  | arr es => exact ⟨'[', printArrElems es ++ [']'], by simp [printJson], by decide⟩
  | obj fs => exact ⟨'\x7b', printObjMembers fs ++ ['\x7d'], by simp [printJson], by decide⟩

set_option maxHeartbeats 1600000 in
theorem parseValue_succ (fuel : Nat) (l : List Char) :
    parseValue (fuel + 1) l =
      match l with
      | [] => none
      | c :: rest =>
        if c = 'n' then
          match rest with
          | 'u' :: 'l' :: 'l' :: r => some (.null, r)
          | _ => none
        else if c = 't' then
          match rest with
          | 'r' :: 'u' :: 'e' :: r => some (.bool true, r)
          | _ => none
        else if c = 'f' then
          match rest with
          | 'a' :: 'l' :: 's' :: 'e' :: r => some (.bool false, r)
          | _ => none
        else if c = '"' then
          (parseStringBody rest).map fun sr => (.str ⟨sr.1⟩, sr.2)
        else if c = '[' then
          match rest with
          | [] => none
          | c2 :: r2 =>
            if c2 = ']' then some (.arr [], r2)
            else (parseElems fuel (c2 :: r2)).map fun er => (.arr er.1, er.2)
        else if c = '\x7b' then
          match rest with
          | [] => none
          | c2 :: r2 =>
            if c2 = '\x7d' then some (.obj [], r2)
            else (parseMembers fuel (c2 :: r2)).map fun fr => (.obj fr.1, fr.2)
        else if c = '-' then
          let dr := takeDigits rest
          if dr.1.isEmpty then none
          else some (.num (-(digitsToNat 0 dr.1 : Int)), dr.2)
        else if isDigitChar c then
          let dr := takeDigits (c :: rest)
          some (.num ((digitsToNat 0 dr.1 : Nat) : Int), dr.2)
        else none := by
  rw [parseValue.eq_def]


theorem parseElems_succ (fuel : Nat) (l : List Char) :
    parseElems (fuel + 1) l =
      match parseValue fuel l with
      | none => none
      | some (v, r) =>
        match r with
        | ',' :: r2 => (parseElems fuel r2).map fun er => (v :: er.1, er.2)
        | ']' :: r2 => some ([v], r2)
        | _ => none := by
  rw [parseElems.eq_def]

theorem parseMembers_succ (fuel : Nat) (l : List Char) :
    parseMembers (fuel + 1) l =
      match l with
      | '"' :: rest =>
        match parseStringBody rest with
        | none => none
        | some (k, r2) =>
          match r2 with
          | ':' :: r3 =>
            match parseValue fuel r3 with
            | none => none
            | some (v, r4) =>
              match r4 with
              | ',' :: r5 => (parseMembers fuel r5).map fun fr => ((⟨k⟩, v) :: fr.1, fr.2)
              | '\x7d' :: r5 => some ([(⟨k⟩, v)], r5)
              | _ => none
          | _ => none
      | _ => none := by
  rw [parseMembers.eq_def]

theorem json_sizeOf_pos (v : Json) : 1 ≤ sizeOf v := by
  cases v <;> simp

theorem plist_sizeOf_pos {α : Type} [SizeOf α] (l : List α) : 1 ≤ sizeOf l := by
  cases l with
  | nil => simp
  | cons a l2 => simp only [List.cons.sizeOf_spec]; omega

/-- The printer/parser round trip, by strong induction on size: parsing the
printed form of a value, of a non-empty array-element list, or of a
non-empty object-member list succeeds and consumes exactly the printed
characters, provided the remaining input does not begin with a digit (so
numerals end where they should) and the fuel covers the printed form. -/
theorem parse_print_roundtrip (N : Nat) :
    (∀ v : Json, sizeOf v ≤ N → ∀ (fuel : Nat) (rest : List Char),
      fuelV v ≤ fuel → noDigitHead rest = true →
      parseValue fuel (printJson v ++ rest) = some (v, rest)) ∧
    (∀ (e : Json) (es : List Json), sizeOf e + sizeOf es ≤ N →
      ∀ (fuel : Nat) (rest : List Char), fuelL (e :: es) ≤ fuel →
      parseElems fuel (printArrElems (e :: es) ++ ']' :: rest) = some (e :: es, rest)) ∧
    (∀ (k : String) (v : Json) (fs : List (String × Json)), sizeOf v + sizeOf fs ≤ N →
      ∀ (fuel : Nat) (rest : List Char), fuelM ((k, v) :: fs) ≤ fuel →
      parseMembers fuel (printObjMembers ((k, v) :: fs) ++ '\x7d' :: rest) =
        some ((k, v) :: fs, rest)) := by
  induction N with
  | zero =>
    refine ⟨?_, ?_, ?_⟩
    · intro v hv
      exact absurd hv (by have := json_sizeOf_pos v; omega)
    · intro e es hsz
      exact absurd hsz (by have := json_sizeOf_pos e; omega)
    · intro k v fs hsz
      exact absurd hsz (by have := json_sizeOf_pos v; omega)
  | succ N ihN =>
    obtain ⟨ihV, ihL, ihM⟩ := ihN
    refine ⟨?_, ?_, ?_⟩
    · intro v hsz fuel rest hfuel hnd
      obtain ⟨f, rfl⟩ : ∃ f, fuel = f + 1 := ⟨fuel - 1, by have := fuelV_pos v; omega⟩
      cases v with
      | null =>
        rw [show printJson Json.null = 'n' :: 'u' :: 'l' :: 'l' :: [] from by simp [printJson]]
        simp only [List.cons_append, List.nil_append]
        rw [parseValue_succ]
        simp
      | bool b =>
        cases b with
        | true =>
          rw [show printJson (Json.bool true) = 't' :: 'r' :: 'u' :: 'e' :: [] from by
            simp [printJson]]
          simp only [List.cons_append, List.nil_append]
          rw [parseValue_succ]
          simp
        | false =>
          rw [show printJson (Json.bool false) = 'f' :: 'a' :: 'l' :: 's' :: 'e' :: [] from by
            simp [printJson]]
          simp only [List.cons_append, List.nil_append]
          rw [parseValue_succ]
          simp
      | num n =>
        simp only [printJson]
        unfold printInt
        by_cases hn : n < 0
        · rw [if_pos hn, List.cons_append, parseValue_succ]
          have htd : takeDigits (natDigits (-n).toNat ++ rest) = (natDigits (-n).toNat, rest) :=
            takeDigits_split _ _ (natDigits_all_digits _) hnd
          have hne : (natDigits (-n).toNat).isEmpty = false := by
            cases hd : natDigits (-n).toNat with
            | nil => exact absurd hd (natDigits_ne_nil _)
            | cons x xs => rfl
          have hval : ((-n).toNat : Int) = -n := by omega
          simp [htd, hne, digitsToNat_natDigits, hval]
        · rw [if_neg hn]
          obtain ⟨c, cs, heq, hc⟩ := natDigits_cons n.toNat
          obtain ⟨hn1, hn2, hn3, hn4, hn5, hn6, hn7⟩ := digit_ne_specials c hc
          rw [heq, List.cons_append, parseValue_succ]
          have htd : takeDigits (c :: (cs ++ rest)) = (c :: cs, rest) := by
            rw [show c :: (cs ++ rest) = (c :: cs) ++ rest from rfl, ← heq]
            exact takeDigits_split _ _ (natDigits_all_digits _) hnd
          have hval : (n.toNat : Int) = n := by omega
          simp [hn1, hn2, hn3, hn4, hn5, hn6, hn7, hc, htd, ← heq, digitsToNat_natDigits, hval]
      | str s =>
        simp only [printJson, quoteChars, List.cons_append, List.append_assoc,
          List.singleton_append]
        rw [parseValue_succ]
        simp [parseStringBody_quote, mk_data_eq]
      | arr es =>
        simp only [printJson, List.cons_append, List.append_assoc, List.singleton_append]
        rw [parseValue_succ]
        cases es with
        | nil => simp [printArrElems]
        | cons e es' =>
          obtain ⟨c, cs, heq, hc⟩ := printJson_cons e
          obtain ⟨hne1, hne2, hne3⟩ := valueStart_ne c hc
          have hpa : ∃ tail, printArrElems (e :: es') = c :: tail := by
            cases es' with
            | nil => exact ⟨cs, by simp [printArrElems, heq]⟩
            | cons e2 es'' =>
              exact ⟨cs ++ ',' :: printArrElems (e2 :: es''), by simp [printArrElems, heq]⟩
          obtain ⟨tail, htail⟩ := hpa
          rw [htail, List.cons_append]
          have hback : c :: (tail ++ ']' :: rest) = printArrElems (e :: es') ++ ']' :: rest := by
            rw [htail, List.cons_append]
          have hfl : fuelL (e :: es') ≤ f := by
            simp only [fuelV] at hfuel
            omega
          have hszL : sizeOf e + sizeOf es' ≤ N := by
            simp only [Json.arr.sizeOf_spec, List.cons.sizeOf_spec] at hsz
            omega
          simp [hne1, hback, ihL e es' hszL f rest hfl]
      | obj fs =>
        simp only [printJson, List.cons_append, List.append_assoc, List.singleton_append]
        rw [parseValue_succ]
        rcases fs with - | ⟨⟨k, v⟩, fs'⟩
        · simp [printObjMembers]
        · have hpm : ∃ tail, printObjMembers ((k, v) :: fs') = '"' :: tail := by
            cases fs' with
            | nil =>
              exact ⟨k.data.flatMap escapeChar ++ ['"'] ++ ':' :: printJson v,
                by simp [printObjMembers, quoteChars]⟩
            | cons kv2 fs'' =>
              exact ⟨k.data.flatMap escapeChar ++ ['"'] ++ ':' :: printJson v ++
                ',' :: printObjMembers (kv2 :: fs''), by simp [printObjMembers, quoteChars]⟩
          obtain ⟨tail, htail⟩ := hpm
          rw [htail, List.cons_append]
          have hback : '"' :: (tail ++ '\x7d' :: rest) =
              printObjMembers ((k, v) :: fs') ++ '\x7d' :: rest := by
            rw [htail, List.cons_append]
          have hfm : fuelM ((k, v) :: fs') ≤ f := by
            simp only [fuelV] at hfuel
            omega
          have hszM : sizeOf v + sizeOf fs' ≤ N := by
            simp only [Json.obj.sizeOf_spec, List.cons.sizeOf_spec, Prod.mk.sizeOf_spec] at hsz
            omega
          simp [hback, ihM k v fs' hszM f rest hfm]
    · intro e es hsz fuel rest hfuel
      obtain ⟨f, rfl⟩ : ∃ f, fuel = f + 1 := ⟨fuel - 1, by have := fuelL_pos (e :: es); omega⟩
      rw [parseElems_succ]
      cases es with
      | nil =>
        rw [show printArrElems [e] = printJson e from by simp [printArrElems]]
        have hfv : fuelV e ≤ f := by
          simp only [fuelL] at hfuel
          omega
        have hszV : sizeOf e ≤ N := by
          simp only [List.nil.sizeOf_spec] at hsz
          omega
        rw [ihV e hszV f (']' :: rest) hfv (by rfl)]
        simp
      | cons e2 es'' =>
        rw [show printArrElems (e :: e2 :: es'') = printJson e ++ ',' :: printArrElems (e2 :: es'')
          from by simp [printArrElems]]
        rw [List.append_assoc, List.cons_append]
        have hfv : fuelV e ≤ f := by
          simp only [fuelL] at hfuel
          omega
        have hfl : fuelL (e2 :: es'') ≤ f := by
          simp only [fuelL] at hfuel
          omega
        have hszV : sizeOf e ≤ N := by
          have h1 := plist_sizeOf_pos (e2 :: es'')
          omega
        have hszL : sizeOf e2 + sizeOf es'' ≤ N := by
          have h1 := json_sizeOf_pos e
          simp only [List.cons.sizeOf_spec] at hsz
          omega
        rw [ihV e hszV f _ hfv (by rfl)]
        simp [ihL e2 es'' hszL f rest hfl]
    · intro k v fs hsz fuel rest hfuel
      obtain ⟨f, rfl⟩ : ∃ f, fuel = f + 1 := ⟨fuel - 1, by have := fuelM_pos ((k, v) :: fs); omega⟩
      rw [parseMembers_succ]
      rcases fs with - | ⟨⟨k2, v2⟩, fs''⟩
      · rw [show printObjMembers [(k, v)] = quoteChars k.data ++ ':' :: printJson v
          from by simp [printObjMembers]]
        simp only [quoteChars, List.cons_append, List.append_assoc, List.singleton_append]
        have hfv : fuelV v ≤ f := by
          simp only [fuelM] at hfuel
          omega
        have hszV : sizeOf v ≤ N := by
          simp only [List.nil.sizeOf_spec] at hsz
          omega
        simp [parseStringBody_quote, ihV v hszV f ('\x7d' :: rest) hfv (by rfl), mk_data_eq]
      · rw [show printObjMembers ((k, v) :: (k2, v2) :: fs'') =
          quoteChars k.data ++ ':' :: printJson v ++ ',' :: printObjMembers ((k2, v2) :: fs'')
          from by simp [printObjMembers]]
        simp only [quoteChars, List.cons_append, List.append_assoc, List.singleton_append]
        have hfv : fuelV v ≤ f := by
          simp only [fuelM] at hfuel
          omega
        have hfm : fuelM ((k2, v2) :: fs'') ≤ f := by
          simp only [fuelM] at hfuel
          omega
        have hszV : sizeOf v ≤ N := by
          have h1 := plist_sizeOf_pos ((k2, v2) :: fs'')
          omega
        have hszM : sizeOf v2 + sizeOf fs'' ≤ N := by
          have h1 := json_sizeOf_pos v
          simp only [List.cons.sizeOf_spec, Prod.mk.sizeOf_spec] at hsz
          omega
        simp [parseStringBody_quote,
          ihV v hszV f (',' :: (printObjMembers ((k2, v2) :: fs'') ++ '\x7d' :: rest))
            hfv (by rfl),
          ihM k2 v2 fs'' hszM f rest hfm, mk_data_eq]

/-- `parseValue` inverts `printJson`. -/
theorem parse_print_value (v : Json) (fuel : Nat) (rest : List Char)
    (hfuel : fuelV v ≤ fuel) (hnd : noDigitHead rest = true) :
    parseValue fuel (printJson v ++ rest) = some (v, rest) :=
  (parse_print_roundtrip (sizeOf v)).1 v (Nat.le_refl _) fuel rest hfuel hnd


/-- The fuel needed by the parser is covered by the printed length (so the
`text.length + 1` fuel in `JSONparse` always suffices). -/
theorem fuel_le_print (N : Nat) :
    (∀ v : Json, sizeOf v ≤ N → fuelV v ≤ (printJson v).length) ∧
    (∀ (e : Json) (es : List Json), sizeOf e + sizeOf es ≤ N →
      fuelL (e :: es) ≤ (printArrElems (e :: es)).length + 1) ∧
    (∀ (k : String) (v : Json) (fs : List (String × Json)), sizeOf v + sizeOf fs ≤ N →
      fuelM ((k, v) :: fs) ≤ (printObjMembers ((k, v) :: fs)).length + 1) := by
  induction N with
  | zero =>
    refine ⟨?_, ?_, ?_⟩
    · intro v hv
      exact absurd hv (by have := json_sizeOf_pos v; omega)
    · intro e es hsz
      exact absurd hsz (by have := json_sizeOf_pos e; omega)
    · intro k v fs hsz
      exact absurd hsz (by have := json_sizeOf_pos v; omega)
  | succ N ihN =>
    obtain ⟨ihV, ihL, ihM⟩ := ihN
    refine ⟨?_, ?_, ?_⟩
    · intro v hsz
      cases v with
      | null =>
        simp only [fuelV, printJson]
        decide
      | bool b =>
        cases b
        all_goals simp only [fuelV, printJson]
        all_goals decide
      | num n =>
        simp only [fuelV, printJson]
        unfold printInt
        by_cases hn : n < 0
        · rw [if_pos hn]
          simp
        · rw [if_neg hn]
          obtain ⟨c, cs, heq, -⟩ := natDigits_cons n.toNat
          rw [heq]
          simp
      | str s => simp [fuelV, printJson, quoteChars]
      | arr es =>
        cases es with
        | nil => simp [fuelV, fuelL, printJson, printArrElems]
        | cons e es' =>
          have h := ihL e es'
            (by simp only [Json.arr.sizeOf_spec, List.cons.sizeOf_spec] at hsz; omega)
          simp only [fuelV, printJson, List.length_cons, List.length_append,
            List.length_singleton]
          omega
      | obj fs =>
        rcases fs with - | ⟨⟨k, v⟩, fs'⟩
        · simp [fuelV, fuelM, printJson, printObjMembers]
        · have h := ihM k v fs' (by
            simp only [Json.obj.sizeOf_spec, List.cons.sizeOf_spec, Prod.mk.sizeOf_spec] at hsz
            omega)
          simp only [fuelV, printJson, List.length_cons, List.length_append,
            List.length_singleton]
          omega
    · intro e es hsz
      cases es with
      | nil =>
        have h := ihV e (by simp only [List.nil.sizeOf_spec] at hsz; omega)
        simp only [fuelL]
        rw [show printArrElems [e] = printJson e from by simp [printArrElems]]
        omega
      | cons e2 es'' =>
        have h1 := ihV e (by have := plist_sizeOf_pos (e2 :: es''); omega)
        have h2 := ihL e2 es'' (by
          have := json_sizeOf_pos e
          simp only [List.cons.sizeOf_spec] at hsz
          omega)
        simp only [fuelL]
        rw [show printArrElems (e :: e2 :: es'') =
          printJson e ++ ',' :: printArrElems (e2 :: es'') from by simp [printArrElems]]
        simp only [List.length_append, List.length_cons]
        omega
    · intro k v fs hsz
      rcases fs with - | ⟨⟨k2, v2⟩, fs''⟩
      · have h := ihV v (by simp only [List.nil.sizeOf_spec] at hsz; omega)
        simp only [fuelM]
        rw [show printObjMembers [(k, v)] = quoteChars k.data ++ ':' :: printJson v
          from by simp [printObjMembers]]
        simp only [List.length_append, List.length_cons]
        omega
      · have h1 := ihV v (by have := plist_sizeOf_pos ((k2, v2) :: fs''); omega)
        have h2 := ihM k2 v2 fs'' (by
          have := json_sizeOf_pos v
          simp only [List.cons.sizeOf_spec, Prod.mk.sizeOf_spec] at hsz
          omega)
        simp only [fuelM]
        rw [show printObjMembers ((k, v) :: (k2, v2) :: fs'') =
          quoteChars k.data ++ ':' :: printJson v ++ ',' :: printObjMembers ((k2, v2) :: fs'')
          from by simp [printObjMembers]]
        simp only [List.length_append, List.length_cons]
        omega

theorem fuelV_le_length (v : Json) : fuelV v ≤ (printJson v).length :=
  (fuel_le_print (sizeOf v)).1 v (Nat.le_refl _)

/-- `JSON.parse` inverts `JSON.stringify`. -/
theorem JSONparse_stringify (v : Json) : JSONparse (JSONstringify v) = some v := by
  have h := parse_print_value v ((printJson v).length + 1) []
    (by have := fuelV_le_length v; omega) (by rfl)
  rw [List.append_nil] at h
  unfold JSONparse JSONstringify
  rw [show (String.mk (printJson v)).length = (printJson v).length from rfl,
    show (String.mk (printJson v)).data = printJson v from rfl, h]

/-- Copying fields whose keys are fresh and mutually distinct onto an own
table just appends them in order. -/
theorem foldl_setField (fields : List (String × Json)) :
    ∀ own : List (String × Json),
      (∀ k0 ∈ own.map Prod.fst, k0 ∉ fields.map Prod.fst) →
      (fields.map Prod.fst).Nodup →
      fields.foldl (fun own2 kv => setField own2 kv.1 kv.2) own = own ++ fields := by
  induction fields with
  | nil =>
    intro own _ _
    simp
  | cons kv fs ih =>
    obtain ⟨k, v⟩ := kv
    intro own hdisj hnd
    rw [List.foldl_cons]
    have hk : ((own.map Prod.fst).contains k) = false := by
      by_contra hcon
      have hmem : k ∈ own.map Prod.fst := by
        rw [Bool.not_eq_false] at hcon
        simpa [List.elem_iff] using hcon
      exact hdisj k hmem (by simp)
    have hset : setField own k v = own ++ [(k, v)] := by
      unfold setField
      rw [if_neg (by rw [hk]; simp)]
    rw [hset]
    rw [ih (own ++ [(k, v)]) ?_ ?_]
    · simp
    · intro k0 hk0
      rw [List.map_append, List.mem_append] at hk0
      rcases hk0 with hk0 | hk0
      · have := hdisj k0 hk0
        simp only [List.map_cons, List.mem_cons] at this
        intro hmem
        exact this (Or.inr hmem)
      · have hk0k : k0 = k := by simpa using hk0
        subst hk0k
        simp only [List.map_cons, List.nodup_cons] at hnd
        exact hnd.1
    · simp only [List.map_cons, List.nodup_cons] at hnd
      exact hnd.2

/-- C8: serializing any structurally-representable object and deserializing
it onto a blueprint round-trips: `fromJSON proto (getJSON v)` yields an
object whose own fields are exactly `v`'s fields (in order) and whose
prototype is the blueprint, so every own field of `v` is carried over, every
blueprint capability remains reachable, and parsed fields win over blueprint
members on key collision.  The JSON host primitives are modelled from their
specification with integer numerals. -/
theorem C8_serialize_roundtrip {M : Type} (fields : List (String × Json))
    (proto : List (String × M)) (hnd : (fields.map Prod.fst).Nodup) :
    fromJSON proto (getJSON (.obj fields)) = some ⟨fields, proto⟩ ∧
    (∀ k v, lookupAssoc fields k = some v →
      lookupMember (⟨fields, proto⟩ : JsObject M) k = some (.inl v)) ∧
    (∀ k m, lookupAssoc fields k = none → lookupAssoc proto k = some m →
      lookupMember (⟨fields, proto⟩ : JsObject M) k = some (.inr m)) := by
  refine ⟨?_, ?_, ?_⟩
  · unfold fromJSON
    rw [show getJSON (Json.obj fields) = JSONstringify (Json.obj fields) from rfl]
    rw [JSONparse_stringify (Json.obj fields)]
    simp only [Option.map_some', objectAssign, objectCreate, sourceFields]
    rw [foldl_setField fields [] (by simp) hnd]
    simp
  · intro k v h
    simp [lookupMember, h]
  · intro k m h1 h2
    simp [lookupMember, h1, h2]

theorem C8_witness :
    fromJSON (M := String) [("getArea", "fn")] (getJSON (.obj [("radius", .num 10)])) =
        some ⟨[("radius", Json.num 10)], [("getArea", "fn")]⟩ ∧
      lookupMember (⟨[("radius", Json.num 10)], [("getArea", "fn")]⟩ : JsObject String)
        "getArea" = some (.inr "fn") ∧
      lookupMember (⟨[("radius", Json.num 10)], [("getArea", "fn")]⟩ : JsObject String)
        "radius" = some (.inl (Json.num 10)) :=
  ⟨(C8_serialize_roundtrip [("radius", Json.num 10)] [("getArea", "fn")] (by simp)).1,
   (C8_serialize_roundtrip [("radius", Json.num 10)] [("getArea", "fn")] (by simp)).2.2
     "getArea" "fn" (by rfl) (by rfl),
   (C8_serialize_roundtrip [("radius", Json.num 10)] [("getArea", "fn")] (by simp)).2.1
     "radius" (Json.num 10) (by rfl)⟩
